import Mathlib

/-!
# stream-json-response: incremental JSON-array pipelines

A shallow embedding of `src/main.go` (`sseHandler`, `streamToFile`,
`manualStreamDownloadAndStreamFlush`, `fetchAlbums`) together with a model of the part of Go's
`encoding/json` the program drives (`Decoder.Token`, `Decoder.More`, `Decoder.Decode`,
`Encoder.Encode`).

Layers, bottom up:

* `Body`: what the response body reader delivers, as a sequence of code points followed by the
  way the reader ends (`io.EOF` or a read error such as an expired deadline);
* `lexGo` / `tokenize`: the lexical layer of the JSON scanner;
* `scanValue`: the grammar layer of the scanner, finding the extent of one value (`readValue`);
* `unmarshalAlbum`: decoding one value into the `album` struct;
* `Decoder`: the token-mode state machine of `json.Decoder`;
* `marshalAlbum`, `encodeAlbum`: what `json.Encoder` writes for an `album`;
* the four functions of `main.go`, each producing the trace of its effects and its outcome.

Conventions of the model:

* text is a sequence of Unicode code points (UTF-8 decoding and invalid UTF-8 are not
  modelled);
* Go's `int` has 64 bits;
* the encoder escapes as Go 1.22 and later do (`\b` and `\f` have short escapes);
* `Decoder.More` is that of the current library: where only white space is left before a
  reader error, or before the end of the input inside an open array, it answers true and the
  `Decode` that follows returns the error (`dec.err != io.EOF`);
* writes to the file and to the client are recorded as issued: the program ignores their
  results;
* the text of `err.Error()` for decoder errors is a parameter (`ErrorText`), and lines printed
  on standard output are recorded by call site (`LogLine`);
* the two loops of the program run under a bound, the number of remaining tokens plus
  one, that is never reached (`fileLoop_bound`, `sseLoop_bound`, `manualStream_total`,
  `sseHandler_total`).
-/

set_option maxRecDepth 100000

namespace StreamJson

/-! ## The response body -/

/-- How the body reader ends after its data: `io.EOF`, or a read error (for the export
pipeline, the expiry of the 2 second deadline surfaces here). -/
inductive ReadEnd
  | eof
  | fail (e : String)
  deriving DecidableEq, Repr

/-- An open response body: the data the reader delivers, then how it ends. -/
structure Body where
  data : List Char
  fin : ReadEnd
  deriving DecidableEq, Repr

/-! ## Lexical layer -/

/-- One complete lexical JSON token. Strings carry their unquoted content, numbers their
literal text. -/
inductive Tok
  | lbrack | rbrack | lbrace | rbrace | colon | comma
  | str (s : String)
  | num (lit : String)
  | litTrue | litFalse | litNull
  deriving DecidableEq, Repr

/-- States of the scanner inside a number literal (`stateNeg`, `state0`, `state1`, `stateDot`,
`stateDot0`, `stateE`, `stateESign`, `stateE0`). -/
inductive NumSt
  | neg | zero | int | dot | frac | e | esign | exp
  deriving DecidableEq, Repr

/-- A number literal may end in this state. -/
def NumSt.accepting : NumSt → Bool
  | .zero | .int | .frac | .exp => true
  | _ => false

/-- States of the lexer. Accumulators hold the characters read so far, most recent first. -/
inductive LexSt
  /-- between tokens -/
  | start
  /-- between tokens, and the previous character ended a string or a literal -/
  | afterScalar (quoted : Bool)
  /-- inside a string -/
  | inStr (acc : List Char)
  /-- inside a string, after a backslash -/
  | esc (acc : List Char)
  /-- inside the four hex digits of an escape; `hi` is a pending high surrogate -/
  | uni (acc : List Char) (hi : Option Nat) (n : Nat) (k : Nat)
  /-- inside a string, right after an escaped high surrogate -/
  | afterHi (acc : List Char) (hi : Nat)
  /-- inside a string, after a high surrogate and a backslash -/
  | afterHiEsc (acc : List Char) (hi : Nat)
  /-- inside a number -/
  | num (acc : List Char) (ns : NumSt)
  /-- inside `true`, `false` or `null`; `rest` is what must still come -/
  | lit (tok : Tok) (rest : List Char)
  deriving DecidableEq, Repr

/-- Result of feeding one character to the lexer. -/
inductive LexStep
  | next (st : LexSt) (emit : List Tok)
  | bad (quoted : Bool)
  deriving DecidableEq, Repr

def isSpace (c : Char) : Bool :=
  c == ' ' || c == '\t' || c == '\r' || c == '\n'

def isDigit (c : Char) : Bool :=
  '0'.toNat ≤ c.toNat && c.toNat ≤ '9'.toNat

def hexVal (c : Char) : Option Nat :=
  if '0'.toNat ≤ c.toNat && c.toNat ≤ '9'.toNat then some (c.toNat - '0'.toNat)
  else if 'a'.toNat ≤ c.toNat && c.toNat ≤ 'f'.toNat then some (c.toNat - 'a'.toNat + 10)
  else if 'A'.toNat ≤ c.toNat && c.toNat ≤ 'F'.toNat then some (c.toNat - 'A'.toNat + 10)
  else none

def isHighSurrogate (n : Nat) : Bool := 0xD800 ≤ n && n < 0xDC00

def isLowSurrogate (n : Nat) : Bool := 0xDC00 ≤ n && n < 0xE000

/-- The replacement character U+FFFD. -/
def replacementChar : Char := Char.ofNat 0xFFFD

def mkString (acc : List Char) : String := String.mk acc.reverse

/-- A character at the beginning of a token (`stateBeginValue` and the punctuation). -/
def lexStart (c : Char) : LexStep :=
  if isSpace c then .next .start []
  else if c == '[' then .next .start [.lbrack]
  else if c == ']' then .next .start [.rbrack]
  else if c == '{' then .next .start [.lbrace]
  else if c == '}' then .next .start [.rbrace]
  else if c == ':' then .next .start [.colon]
  else if c == ',' then .next .start [.comma]
  else if c == '"' then .next (.inStr []) []
  else if c == '-' then .next (.num [c] .neg) []
  else if c == '0' then .next (.num [c] .zero) []
  else if isDigit c then .next (.num [c] .int) []
  else if c == 't' then .next (.lit .litTrue ['r', 'u', 'e']) []
  else if c == 'f' then .next (.lit .litFalse ['a', 'l', 's', 'e']) []
  else if c == 'n' then .next (.lit .litNull ['u', 'l', 'l']) []
  else .bad false

/-- A character inside a string (`stateInString`). -/
def lexInStr (acc : List Char) (c : Char) : LexStep :=
  if c == '"' then .next (.afterScalar true) [.str (mkString acc)]
  else if c == '\\' then .next (.esc acc) []
  else if c.toNat < 0x20 then .bad true
  else .next (.inStr (c :: acc)) []

/-- A character after a backslash (`stateInStringEsc`). -/
def lexEsc (acc : List Char) (c : Char) : LexStep :=
  if c == 'b' then .next (.inStr (Char.ofNat 8 :: acc)) []
  else if c == 'f' then .next (.inStr (Char.ofNat 12 :: acc)) []
  else if c == 'n' then .next (.inStr ('\n' :: acc)) []
  else if c == 'r' then .next (.inStr ('\r' :: acc)) []
  else if c == 't' then .next (.inStr ('\t' :: acc)) []
  else if c == '\\' || c == '/' || c == '"' then .next (.inStr (c :: acc)) []
  else if c == 'u' then .next (.uni acc none 0 0) []
  else .bad true

/-- The code unit `n` of a completed `\uXXXX` escape, with `hi` a pending high surrogate
(`unquote`: a valid pair is combined, an unpaired surrogate becomes U+FFFD). -/
def lexUnit (acc : List Char) (hi : Option Nat) (n : Nat) : LexSt :=
  match hi with
  | some h =>
    if isLowSurrogate n then
      .inStr (Char.ofNat (0x10000 + (h - 0xD800) * 0x400 + (n - 0xDC00)) :: acc)
    else if isHighSurrogate n then .afterHi (replacementChar :: acc) n
    else .inStr (Char.ofNat n :: replacementChar :: acc)
  | none =>
    if isHighSurrogate n then .afterHi acc n
    else if isLowSurrogate n then .inStr (replacementChar :: acc)
    else .inStr (Char.ofNat n :: acc)

/-- A character inside a number whose state is `ns`; `none` when the character cannot continue
the literal (`state0`, `state1`, ...). -/
def numNext (ns : NumSt) (c : Char) : Option NumSt :=
  match ns with
  | .neg => if c == '0' then some .zero else if isDigit c then some .int else none
  | .int =>
    if isDigit c then some .int
    else if c == '.' then some .dot
    else if c == 'e' || c == 'E' then some .e
    else none
  | .zero =>
    if c == '.' then some .dot
    else if c == 'e' || c == 'E' then some .e
    else none
  | .dot => if isDigit c then some .frac else none
  | .frac =>
    if isDigit c then some .frac
    else if c == 'e' || c == 'E' then some .e
    else none
  | .e => if c == '+' || c == '-' then some .esign else if isDigit c then some .exp else none
  | .esign => if isDigit c then some .exp else none
  | .exp => if isDigit c then some .exp else none

/-- Prepend a token to what a step emits. -/
def LexStep.emitFirst (t : Tok) : LexStep → LexStep
  | .next st ts => .next st (t :: ts)
  | .bad q => .bad q

/-- One step of the lexer. -/
def lexStep (st : LexSt) (c : Char) : LexStep :=
  match st with
  | .start => lexStart c
  | .afterScalar _ => lexStart c
  | .inStr acc => lexInStr acc c
  | .esc acc => lexEsc acc c
  | .uni acc hi n k =>
    match hexVal c with
    | none => .bad true
    | some v => if k = 3 then .next (lexUnit acc hi (n * 16 + v)) [] else
        .next (.uni acc hi (n * 16 + v) (k + 1)) []
  | .afterHi acc hi =>
    if c == '\\' then .next (.afterHiEsc acc hi) []
    else lexInStr (replacementChar :: acc) c
  | .afterHiEsc acc hi =>
    if c == 'u' then .next (.uni acc (some hi) 0 0) []
    else lexEsc (replacementChar :: acc) c
  | .num acc ns =>
    match numNext ns c with
    | some ns1 => .next (.num (c :: acc) ns1) []
    | none =>
      if ns.accepting then (lexStart c).emitFirst (.num (mkString acc))
      else .bad false
  | .lit tok rest =>
    match rest with
    | [] => .bad false
    | [r] => if c == r then .next (.afterScalar false) [tok] else .bad false
    | r :: rs => if c == r then .next (.lit tok rs) [] else .bad false

/-- How the delivered data ends, lexically. -/
inductive LexEnd
  /-- only white space after the last token -/
  | clean
  /-- the last token is a string, literal or number whose last character is the last character
  of the data: the scanner has not yet seen the byte that ends it -/
  | pending (quoted : Bool)
  /-- the data ends inside a token -/
  | cut (quoted : Bool)
  /-- an invalid character -/
  | bad (quoted : Bool)
  deriving DecidableEq, Repr

/-- What the lexer reports when the data ends in state `st`. -/
def lexFinish : LexSt → List Tok × LexEnd
  | .start => ([], .clean)
  | .afterScalar q => ([], .pending q)
  | .num acc ns => if ns.accepting then ([.num (mkString acc)], .pending false) else ([], .cut false)
  | .lit _ _ => ([], .cut false)
  | _ => ([], .cut true)

/-- The lexer: the complete tokens of the data, in order, and how the data ends. -/
def lexGo : LexSt → List Char → List Tok × LexEnd
  | st, [] => lexFinish st
  | st, c :: cs =>
    match lexStep st c with
    | .bad q => ([], .bad q)
    | .next st1 ts => let r := lexGo st1 cs; (ts ++ r.1, r.2)

/-- What follows the last complete token of a body. -/
inductive Stop
  /-- only white space, then the reader ends with `fin` -/
  | clean (fin : ReadEnd)
  /-- the beginning of a token that the reader never completes, then `fin` -/
  | cut (quoted : Bool) (fin : ReadEnd)
  /-- an invalid character -/
  | bad (quoted : Bool)
  deriving DecidableEq, Repr

/-- A body as the decoder sees it: its complete tokens, then what follows them. -/
structure Stream where
  toks : List Tok
  stop : Stop
  deriving DecidableEq, Repr

/-- The token stream of a body. A string, literal or number that ends with the last delivered
character is complete when the reader then reports `io.EOF` (`readValue` feeds the scanner a
space), and incomplete when the reader reports another error (`readValue` returns that error
before the scanner has seen the end of the token). -/
def tokenize (body : Body) : Stream :=
  match lexGo .start body.data with
  | (toks, .clean) => ⟨toks, .clean body.fin⟩
  | (toks, .cut q) => ⟨toks, .cut q body.fin⟩
  | (toks, .bad q) => ⟨toks, .bad q⟩
  | (toks, .pending q) =>
    match body.fin with
    | .eof => ⟨toks, .clean .eof⟩
    | .fail e => ⟨toks.dropLast, .cut q (.fail e)⟩

/-! ## Grammar layer: the extent of one value (`Decoder.readValue`) -/

/-- Entries of the scanner's `parseState` stack. -/
inductive PState
  | objKey | objValue | arrValue
  deriving DecidableEq, Repr

/-- Scanner states between tokens (`stateBeginValue`, `stateBeginValueOrEmpty`,
`stateBeginStringOrEmpty`, `stateBeginString`, `stateEndValue`). -/
inductive ScanSt
  | beginValue | beginValueOrEmpty | beginStringOrEmpty | beginString | endValue
  deriving DecidableEq, Repr

inductive ScanStep
  | cont (st : ScanSt) (stack : List PState)
  | fin
  | bad
  deriving DecidableEq, Repr

/-- Closing the innermost array or object (`popParseState`): the value is complete when the
stack becomes empty. -/
def popState : List PState → ScanStep
  | [] => .bad
  | [_] => .fin
  | _ :: rest => .cont .endValue rest

/-- A value begins with token `t`. -/
def beginStep (stack : List PState) (t : Tok) : ScanStep :=
  match t with
  | .lbrace => .cont .beginStringOrEmpty (.objKey :: stack)
  | .lbrack => .cont .beginValueOrEmpty (.arrValue :: stack)
  | .str _ | .num _ | .litTrue | .litFalse | .litNull =>
    if stack.isEmpty then .fin else .cont .endValue stack
  | _ => .bad

/-- One step of the scanner over a token. -/
def scanStep (st : ScanSt) (stack : List PState) (t : Tok) : ScanStep :=
  match st with
  | .beginValue => beginStep stack t
  | .beginValueOrEmpty => if t = .rbrack then popState stack else beginStep stack t
  | .beginStringOrEmpty =>
    match t with
    | .rbrace => popState stack
    | .str _ => .cont .endValue stack
    | _ => .bad
  | .beginString =>
    match t with
    | .str _ => .cont .endValue stack
    | _ => .bad
  | .endValue =>
    match stack with
    | [] => .bad
    | .objKey :: rest => if t = .colon then .cont .beginValue (.objValue :: rest) else .bad
    | .objValue :: rest =>
      if t = .comma then .cont .beginString (.objKey :: rest)
      else if t = .rbrace then popState stack
      else .bad
    | .arrValue :: _ =>
      if t = .comma then .cont .beginValue stack
      else if t = .rbrack then popState stack
      else .bad

/-- Result of scanning for one value: its tokens and what remains, a grammar error, or the
tokens ran out before the value was complete, the scanner being in state `st`. -/
inductive ScanRes
  | done (value rest : List Tok)
  | bad
  | more (st : ScanSt)
  deriving DecidableEq, Repr

/-- Scan the tokens of one value. -/
def scanValue : ScanSt → List PState → List Tok → ScanRes
  | st, _, [] => .more st
  | st, stack, t :: ts =>
    match scanStep st stack t with
    | .bad => .bad
    | .fin => .done [t] ts
    | .cont st1 stack1 =>
      match scanValue st1 stack1 ts with
      | .done v r => .done (t :: v) r
      | .bad => .bad
      | .more st2 => .more st2

/-! ## Decoding into `album` -/

/-- The struct `album` of `main.go` (the spec's Photo). Go's `int` is taken as 64 bits. -/
structure album where
  AlbumId : Int
  Id : Int
  Title : String
  Url : String
  ThumbnailUrl : String
  deriving DecidableEq, Repr

/-- The zero value of `var a album`. -/
def album.zero : album := ⟨0, 0, "", "", ""⟩

inductive Field
  | albumId | id | title | url | thumbnailUrl
  deriving DecidableEq, Repr

/-- Kinds of JSON value named by an `UnmarshalTypeError`. -/
inductive JKind
  | object | array | string | number | bool
  deriving DecidableEq, Repr

/-- Kinds of `*json.SyntaxError` the decoder produces. -/
inductive SynKind
  /-- the scanner met a character that cannot stand there -/
  | invalidChar
  /-- `expected comma after array element` -/
  | expectedComma
  /-- `expected colon after object key` -/
  | expectedColon
  /-- `not at beginning of value` -/
  | notAtValue
  deriving DecidableEq, Repr

/-- Errors returned by the decoder. -/
inductive DecodeErr
  /-- `io.EOF` -/
  | eof
  /-- `io.ErrUnexpectedEOF` -/
  | unexpectedEOF
  /-- the error the body reader returned -/
  | read (e : String)
  /-- a `*json.SyntaxError` -/
  | synErr (k : SynKind)
  /-- a `*json.UnmarshalTypeError` -/
  | typeErr (k : JKind) (field : Option Field)
  deriving DecidableEq, Repr

/-- The struct field a JSON key selects: the `json` tag, compared without regard to case. None
of the five tags contains a letter with a non-ASCII case variant, so ASCII folding is exact. -/
def fieldOf (key : String) : Option Field :=
  let k := String.mk (key.data.map Char.toLower)
  if k = "albumid" then some .albumId
  else if k = "id" then some .id
  else if k = "title" then some .title
  else if k = "url" then some .url
  else if k = "thumbnailurl" then some .thumbnailUrl
  else none

def digitsVal (ds : List Char) : Nat :=
  ds.foldl (fun n c => 10 * n + (c.toNat - '0'.toNat)) 0

/-- A number literal as `strconv.ParseInt(lit, 10, 64)` reads it: `none` for a literal with a
fraction or an exponent and for a value outside the 64-bit range. -/
def parseInt64 (lit : String) : Option Int :=
  match lit.data with
  | '-' :: ds =>
    if ds.all isDigit && !ds.isEmpty && digitsVal ds ≤ 2 ^ 63 then some (-(digitsVal ds : Int))
    else none
  | ds =>
    if ds.all isDigit && !ds.isEmpty && digitsVal ds < 2 ^ 63 then some (digitsVal ds : Int)
    else none

def Tok.kind : Tok → JKind
  | .str _ => .string
  | .num _ => .number
  | .litTrue | .litFalse => .bool
  | .lbrack => .array
  | _ => .object

/-- Store the value token `v` in field `f` (`literalStore`, and the array and object cases of
`value`): `null` leaves the field as it is, a value of the wrong kind is a type error. -/
def storeField (f : Field) (v : Tok) (a : album) : album × Option DecodeErr :=
  match v with
  | .litNull => (a, none)
  | .str s =>
    match f with
    | .title => ({ a with Title := s }, none)
    | .url => ({ a with Url := s }, none)
    | .thumbnailUrl => ({ a with ThumbnailUrl := s }, none)
    | _ => (a, some (.typeErr .string (some f)))
  | .num lit =>
    match f with
    | .albumId =>
      match parseInt64 lit with
      | some i => ({ a with AlbumId := i }, none)
      | none => (a, some (.typeErr .number (some f)))
    | .id =>
      match parseInt64 lit with
      | some i => ({ a with Id := i }, none)
      | none => (a, some (.typeErr .number (some f)))
    | _ => (a, some (.typeErr .number (some f)))
  | t => (a, some (.typeErr t.kind (some f)))

/-- The first saved error is kept (`saveError`). -/
def keepFirst (saved new : Option DecodeErr) : Option DecodeErr :=
  match saved with
  | some e => some e
  | none => new

/-- The members of an object decoded into `a` (`decodeState.object`). The tokens are those of a
value the scanner accepted, after its opening brace. `skip` is the nesting depth inside a member
value that is an array or object: such a value is skipped, and is a type error when its key
names a field. Unknown keys are ignored, a repeated key overwrites. -/
def umMembers : Nat → List Tok → album → Option DecodeErr → album × Option DecodeErr
  | _, [], a, e => (a, e)
  | 0, .str k :: .colon :: v :: rest, a, e =>
    match fieldOf k with
    | none => umMembers (if v = .lbrace ∨ v = .lbrack then 1 else 0) rest a e
    | some f =>
      let r := storeField f v a
      umMembers (if v = .lbrace ∨ v = .lbrack then 1 else 0) rest r.1 (keepFirst e r.2)
  | 0, _ :: rest, a, e => umMembers 0 rest a e
  | skip + 1, t :: rest, a, e =>
    if t = .lbrace ∨ t = .lbrack then umMembers (skip + 2) rest a e
    else if t = .rbrace ∨ t = .rbrack then umMembers skip rest a e
    else umMembers (skip + 1) rest a e

/-- Decoding the tokens of one complete value into a fresh `album` (`decodeState.unmarshal`
with a `*album` target): an object fills the fields its keys name, `null` leaves the zero value,
anything else is a type error. -/
def unmarshalAlbum (v : List Tok) : Except DecodeErr album :=
  match v with
  | .lbrace :: rest =>
    match umMembers 0 rest album.zero none with
    | (a, none) => .ok a
    | (_, some e) => .error e
  | .litNull :: _ => .ok album.zero
  | t :: _ => .error (.typeErr t.kind none)
  | [] => .error (.synErr .invalidChar)

/-! ## The streaming decoder (`json.Decoder` in token mode) -/

/-- The decoder's `tokenState`. -/
inductive TokenState
  | topValue | arrayStart | arrayValue | arrayComma
  | objectStart | objectKey | objectColon | objectValue | objectComma
  deriving DecidableEq, Repr

/-- A `json.Decoder` over a body: the tokens not yet consumed, what follows them, the token
state with its stack (innermost first), and the sticky error `dec.err`. -/
structure Decoder where
  toks : List Tok
  stop : Stop
  tokenState : TokenState
  tokenStack : List TokenState
  err : Option DecodeErr
  deriving DecidableEq, Repr

/-- `json.NewDecoder(body)`. -/
def NewDecoder (body : Body) : Decoder :=
  ⟨(tokenize body).toks, (tokenize body).stop, .topValue, [], none⟩

/-- A value returned by `Decoder.Token`. -/
inductive TokenVal
  | delim (c : Char)
  | str (s : String)
  | num (lit : String)
  | bool (b : Bool)
  | null
  deriving DecidableEq, Repr

/-- The error met where only white space is left: the reader's error; at the end of the
input `io.EOF` at top level, and an unexpected end inside an open array or object. -/
def endOfInput (stack : List TokenState) : ReadEnd → DecodeErr
  | .fail e => .read e
  | .eof => if stack.isEmpty then .eof else .unexpectedEOF

/-- What `peek` finds: the next complete token, the first character of something that is not
a complete token, or the reader's error when only white space is left. -/
inductive Peek
  | tok (t : Tok)
  | junk (quoted : Bool)
  | fail (e : DecodeErr)
  deriving DecidableEq, Repr

/-- `dec.peek()`. -/
def Decoder.peek (d : Decoder) : Peek :=
  match d.toks with
  | t :: _ => .tok t
  | [] =>
    match d.stop with
    | .clean fin => .fail (endOfInput d.tokenStack fin)
    | .cut q _ => .junk q
    | .bad q => .junk q

/-- `dec.More()`. Before a token it answers whether the token is neither `]` nor `\x7d`.
Where only white space is left it reads ahead, keeps the error it meets in `dec.err` and answers
`dec.err != io.EOF`: false at the end of the input at top level, true when the reader fails
and when the input ends inside an open array or object; the `Decode` that follows returns that
error (`Decoder.Decode` finds the same one). -/
def Decoder.More (d : Decoder) : Bool :=
  match d.peek with
  | .tok .rbrack => false
  | .tok .rbrace => false
  | .tok _ => true
  | .junk _ => true
  | .fail e => e != .eof

def TokenState.valueAllowed : TokenState → Bool
  | .topValue | .arrayStart | .arrayValue | .objectValue => true
  | _ => false

/-- `dec.tokenValueEnd()`. -/
def TokenState.valueEnd : TokenState → TokenState
  | .arrayStart | .arrayValue => .arrayComma
  | .objectValue => .objectComma
  | st => st

/-- `dec.tokenPrepareForDecode()`. -/
def Decoder.tokenPrepareForDecode (d : Decoder) : Except DecodeErr Decoder :=
  match d.tokenState with
  | .arrayComma =>
    match d.peek with
    | .fail e => .error e
    | .tok .comma => .ok { d with toks := d.toks.tail, tokenState := .arrayValue }
    | _ => .error (.synErr .expectedComma)
  | .objectColon =>
    match d.peek with
    | .fail e => .error e
    | .tok .colon => .ok { d with toks := d.toks.tail, tokenState := .objectValue }
    | _ => .error (.synErr .expectedColon)
  | _ => .ok d

/-- A token cut short by the end of the data may begin where the scanner is in state `st`: a
string, number or literal where a value begins, only a string where an object key begins, and
nothing right after a value or a key (there its first byte is already a syntax error). -/
def cutAllowed (st : ScanSt) (quoted : Bool) : Bool :=
  match st with
  | .beginValue | .beginValueOrEmpty => true
  | .beginStringOrEmpty | .beginString => quoted
  | .endValue => false

/-- The error `readValue` returns when the tokens run out before the value is complete, the
scanner being in state `st`: a syntax error at an invalid character and at a cut token that may
not begin there, else the error of the reader (an unexpected end for `io.EOF`). -/
def Decoder.endErr (d : Decoder) (st : ScanSt) : DecodeErr :=
  match d.stop with
  | .bad _ => .synErr .invalidChar
  | .cut q fin =>
    if cutAllowed st q then
      match fin with
      | .eof => .unexpectedEOF
      | .fail e => .read e
    else .synErr .invalidChar
  | .clean .eof => if d.toks.isEmpty then endOfInput d.tokenStack .eof else .unexpectedEOF
  | .clean (.fail e) => .read e

/-- `dec.readValue()`: the tokens of the next value and the tokens after it. -/
def Decoder.readValue (d : Decoder) : Except DecodeErr (List Tok × List Tok) :=
  match scanValue .beginValue [] d.toks with
  | .done v rest => .ok (v, rest)
  | .bad => .error (.synErr .invalidChar)
  | .more st => .error (d.endErr st)

/-- `dec.Decode(&a)` with `a` a fresh `album`. Every failure of `readValue` is kept in
`dec.err`; an error of `unmarshal` is returned after the value has been consumed. -/
def Decoder.Decode (d : Decoder) : Decoder × Except DecodeErr album :=
  match d.err with
  | some e => (d, .error e)
  | none =>
    match d.tokenPrepareForDecode with
    | .error e => (d, .error e)
    | .ok d1 =>
      if !d1.tokenState.valueAllowed then (d1, .error (.synErr .notAtValue))
      else
        match d1.readValue with
        | .error e => ({ d1 with err := some e }, .error e)
        | .ok (v, rest) =>
          ({ d1 with toks := rest, tokenState := d1.tokenState.valueEnd }, unmarshalAlbum v)

/-- Mantissa and decimal exponent of a number literal: its magnitude is `m * 10 ^ e`. -/
def numParts (lit : String) : Nat × Int :=
  let cs := match lit.data with
    | '-' :: r => r
    | r => r
  let ip := cs.span isDigit
  let fp := match ip.2 with
    | '.' :: r => r.span isDigit
    | r => ([], r)
  let ex : Int := match fp.2 with
    | _ :: '-' :: ds => -(digitsVal ds : Int)
    | _ :: '+' :: ds => (digitsVal ds : Int)
    | _ :: ds => (digitsVal ds : Int)
    | [] => 0
  (digitsVal (ip.1 ++ fp.1), ex - fp.1.length)

/-- The least magnitude that rounds to an infinity as a `float64`: `2 ^ 1024 - 2 ^ 970`, half
way between the largest finite value and `2 ^ 1024` (`float64Bound_eq`). -/
def float64Bound : Nat :=
  0xFFFFFFFFFFFFFC00000000000000000000000000000000000000000000000000000000000000000000000000000000000000000000000000000000000000000000000000000000000000000000000000000000000000000000000000000000000000000000000000000000000000000000000000000000000000000000000000

/-- The literal rounds to an infinity as a `float64` (`strconv.ParseFloat` reports a range
error): its magnitude is at least `float64Bound`. -/
def overflowsFloat64 (lit : String) : Bool :=
  let p := numParts lit
  if 0 ≤ p.2 then decide (float64Bound ≤ p.1 * 10 ^ p.2.toNat)
  else decide (float64Bound * 10 ^ (-p.2).toNat ≤ p.1)

/-- The value `Decode(&x)` stores in an `any` for a scalar token. -/
def scalarVal : Tok → Except DecodeErr TokenVal
  | .str s => .ok (.str s)
  | .num lit => if overflowsFloat64 lit then .error (.typeErr .number none) else .ok (.num lit)
  | .litTrue => .ok (.bool true)
  | .litFalse => .ok (.bool false)
  | _ => .ok .null

/-- The body of `dec.Token()`; the recursion is the `continue` after a consumed colon or
comma. -/
def tokenLoop (stop : Stop) (err : Option DecodeErr) :
    List Tok → TokenState → List TokenState → Decoder × Except DecodeErr TokenVal
  | [], st, stack =>
    match stop with
    | .clean fin => (⟨[], stop, st, stack, err⟩, .error (endOfInput stack fin))
    | .cut q _ | .bad q =>
      if (q && (st = .objectStart || st = .objectKey)) || st.valueAllowed then
        match err with
        | some e => (⟨[], stop, st, stack, err⟩, .error e)
        | none =>
          (⟨[], stop, st, stack, some (Decoder.endErr ⟨[], stop, st, stack, err⟩ .beginValue)⟩,
            .error (Decoder.endErr ⟨[], stop, st, stack, err⟩ .beginValue))
      else (⟨[], stop, st, stack, err⟩, .error (.synErr .invalidChar))
  | t :: ts, st, stack =>
    match t with
    | .lbrack =>
      if st.valueAllowed then (⟨ts, stop, .arrayStart, st :: stack, err⟩, .ok (.delim '['))
      else (⟨t :: ts, stop, st, stack, err⟩, .error (.synErr .invalidChar))
    | .rbrack =>
      if st = .arrayStart || st = .arrayComma then
        (⟨ts, stop, (stack.headD .topValue).valueEnd, stack.tail, err⟩, .ok (.delim ']'))
      else (⟨t :: ts, stop, st, stack, err⟩, .error (.synErr .invalidChar))
    | .lbrace =>
      if st.valueAllowed then (⟨ts, stop, .objectStart, st :: stack, err⟩, .ok (.delim '{'))
      else (⟨t :: ts, stop, st, stack, err⟩, .error (.synErr .invalidChar))
    | .rbrace =>
      if st = .objectStart || st = .objectComma then
        (⟨ts, stop, (stack.headD .topValue).valueEnd, stack.tail, err⟩, .ok (.delim '}'))
      else (⟨t :: ts, stop, st, stack, err⟩, .error (.synErr .invalidChar))
    | .colon =>
      if st = .objectColon then tokenLoop stop err ts .objectValue stack
      else (⟨t :: ts, stop, st, stack, err⟩, .error (.synErr .invalidChar))
    | .comma =>
      if st = .arrayComma then tokenLoop stop err ts .arrayValue stack
      else if st = .objectComma then tokenLoop stop err ts .objectKey stack
      else (⟨t :: ts, stop, st, stack, err⟩, .error (.synErr .invalidChar))
    | .str s =>
      if st = .objectStart || st = .objectKey then
        match err with
        | some e => (⟨t :: ts, stop, st, stack, err⟩, .error e)
        | none => (⟨ts, stop, .objectColon, stack, err⟩, .ok (.str s))
      else if st.valueAllowed then
        match err with
        | some e => (⟨t :: ts, stop, st, stack, err⟩, .error e)
        | none => (⟨ts, stop, st.valueEnd, stack, err⟩, .ok (.str s))
      else (⟨t :: ts, stop, st, stack, err⟩, .error (.synErr .invalidChar))
    | _ =>
      if st.valueAllowed then
        match err with
        | some e => (⟨t :: ts, stop, st, stack, err⟩, .error e)
        | none => (⟨ts, stop, st.valueEnd, stack, err⟩, scalarVal t)
      else (⟨t :: ts, stop, st, stack, err⟩, .error (.synErr .invalidChar))

/-- `dec.Token()`. -/
def Decoder.Token (d : Decoder) : Decoder × Except DecodeErr TokenVal :=
  tokenLoop d.stop d.err d.toks d.tokenState d.tokenStack

/-! ## The encoder (`json.Encoder.Encode`) -/

def hexDigit (n : Nat) : Char :=
  if n < 10 then Char.ofNat ('0'.toNat + n) else Char.ofNat ('a'.toNat + (n - 10))

/-- One character of a string as `Encoder` writes it, HTML escaping on (the default). -/
def escapeChar (c : Char) : List Char :=
  if c == '"' then ['\\', '"']
  else if c == '\\' then ['\\', '\\']
  else if c.toNat == 8 then ['\\', 'b']
  else if c.toNat == 12 then ['\\', 'f']
  else if c == '\n' then ['\\', 'n']
  else if c == '\r' then ['\\', 'r']
  else if c == '\t' then ['\\', 't']
  else if c.toNat < 0x20 || c == '<' || c == '>' || c == '&' then
    ['\\', 'u', '0', '0', hexDigit (c.toNat / 16), hexDigit (c.toNat % 16)]
  else if c.toNat == 0x2028 then ['\\', 'u', '2', '0', '2', '8']
  else if c.toNat == 0x2029 then ['\\', 'u', '2', '0', '2', '9']
  else [c]

/-- A Go string as a JSON string literal. -/
def quoteString (s : String) : String :=
  String.mk ('"' :: (s.data.flatMap escapeChar ++ ['"']))

/-- The JSON object `json.Marshal` produces for an `album`: its five fields under their tags,
in declaration order. -/
def marshalAlbum (a : album) : String :=
  "\x7b\"albumId\":" ++ toString a.AlbumId ++ ",\"id\":" ++ toString a.Id ++
    ",\"title\":" ++ quoteString a.Title ++ ",\"url\":" ++ quoteString a.Url ++
    ",\"thumbnailUrl\":" ++ quoteString a.ThumbnailUrl ++ "\x7d"

/-- The bytes `enc.Encode(a)` writes: the object, then a newline. -/
def encodeAlbum (a : album) : String :=
  marshalAlbum a ++ "\n"

/-! ## Effects and outcomes of the program -/

/-- The lines the program prints on standard output, by call site. -/
inductive LogLine
  /-- `"Error creating req obj " + err.Error()` -/
  | errCreatingReq (e : String)
  /-- `"Error making request " + err.Error()` -/
  | errMakingRequest (e : String)
  /-- `"Error response " + err.Error()` -/
  | errResponse (e : String)
  /-- `"Error creating file " + err.Error()` -/
  | errCreatingFile (e : String)
  /-- `err.Error() + " or it is not a json array. Read token is " + fmt.Sprintf("%v", t)` -/
  | notAnArray (e : DecodeErr) (t : Option TokenVal)
  /-- `"Full body:"` -/
  | fullBody
  /-- `string(payload)` -/
  | payload (s : String)
  /-- `"Error decoding single album " + err.Error()` -/
  | errDecoding (e : DecodeErr)
  /-- `"Error reading closing bracket:", err` -/
  | errClosingBracket (e : DecodeErr)
  /-- `"Streaming duration " + elapsed.String()` -/
  | streamingDuration
  deriving DecidableEq, Repr

/-- The effects of the program, in the order they happen. -/
inductive Event
  | println (l : LogLine)
  /-- `w.Header().Set(k, v)` -/
  | setHeader (k v : String)
  /-- `http.Error(w, msg, code)` -/
  | httpError (msg : String) (code : Nat)
  /-- `fmt.Fprintf(w, ...)`: bytes written to the client -/
  | clientWrite (s : String)
  /-- `flusher.Flush()` -/
  | flush
  /-- `time.Sleep(n * time.Second)` -/
  | sleep (n : Nat)
  /-- `os.Create(name)` succeeded -/
  | createFile (name : String)
  /-- `file.WriteString(s)` -/
  | fileWrite (s : String)
  /-- `enc.Encode(a)`: the bytes the encoder writes to the file -/
  | encode (s : String)
  /-- `body.Read(payload)` with the nil `payload` -/
  | bodyRead
  /-- the deferred `body.Close()` -/
  | bodyClose
  deriving DecidableEq, Repr

/-- How a function of the program ends. -/
inductive Outcome
  /-- the function returns to its caller -/
  | returned
  /-- `os.Exit(code)`: the whole process ends -/
  | exit (code : Nat)
  /-- a method call on a nil `error`: the runtime panics with a nil pointer dereference and
  the process crashes -/
  | nilDeref
  /-- the bound of a loop of the model was reached (`fileLoop_bound`, `sseLoop_bound`: it is
  not) -/
  | unfinished
  deriving DecidableEq, Repr

/-- The effects of a call and how it ends. -/
structure Run where
  events : List Event
  outcome : Outcome
  deriving DecidableEq, Repr

/-- The bytes written to the client, in order. -/
def clientWrites : List Event → List String
  | [] => []
  | .clientWrite s :: es => s :: clientWrites es
  | _ :: es => clientWrites es

/-- The whole output sent to the client. -/
def clientBytes (es : List Event) : String :=
  String.join (clientWrites es)

/-- The elements the encoder wrote to the file, in order. -/
def encodedElements : List Event → List String
  | [] => []
  | .encode s :: es => s :: encodedElements es
  | _ :: es => encodedElements es

/-- The pieces written to the file, punctuation and elements, in order. -/
def fileWrites : List Event → List String
  | [] => []
  | .fileWrite s :: es => s :: fileWrites es
  | .encode s :: es => s :: fileWrites es
  | _ :: es => fileWrites es

/-- The content of the file. -/
def fileBytes (es : List Event) : String :=
  String.join (fileWrites es)

/-! ## `main.go` -/

/-- An `*http.Response` as far as the program looks at it. -/
structure Response where
  StatusCode : Nat
  Body : Body
  deriving DecidableEq, Repr

/-- What the outbound request meets. -/
inductive Upstream
  /-- `http.NewRequestWithContext` returns an error -/
  | reqErr (e : String)
  /-- `client.Do` returns an error (connection or protocol failure, expired context) -/
  | doErr (e : String)
  /-- `client.Do` returns a response -/
  | response (r : Response)
  deriving DecidableEq, Repr

/-- `fetchAlbums` (main.go lines 145-162): the events, and either the way the process ended
or the returned response with the returned `err`, which is nil on the only path that returns
(the elapsed time is not modelled). -/
def fetchAlbums (up : Upstream) : List Event × Except Outcome (Response × Option String) :=
  match up with
  | .reqErr e => ([.println (.errCreatingReq e)], .error (.exit 1))
  | .doErr e => ([.println (.errMakingRequest e)], .error (.exit 1))
  | .response r => ([], .ok (r, none))

/-- The text of `err.Error()` for each decoder error is a parameter of the model. -/
abbrev ErrorText := DecodeErr → String

/-- The frame written for a decoded album. -/
def titleFrame (title : String) : String :=
  "data: Title: " ++ title ++ "\n\n"

/-- The frame written when an element fails to decode. -/
def decodeErrorFrame (errorText : ErrorText) (e : DecodeErr) : String :=
  "data: Error decoding single album " ++ errorText e ++ "\n\n"

/-- The loop `for dec.More() { ... }` of `sseHandler` (main.go lines 73-84), at most `n`
iterations. -/
def sseLoop (errorText : ErrorText) : Nat → Decoder → Run
  | 0, _ => ⟨[], .unfinished⟩
  | n + 1, dec =>
    if dec.More then
      match dec.Decode with
      | (_, .error e) => ⟨[.clientWrite (decodeErrorFrame errorText e), .flush], .returned⟩
      | (dec1, .ok a) =>
        ⟨.clientWrite (titleFrame a.Title) :: .flush :: .sleep 1 ::
          (sseLoop errorText n dec1).events, (sseLoop errorText n dec1).outcome⟩
    else ⟨[], .returned⟩

/-- The headers `sseHandler` sets first. -/
def sseHeaders : List Event :=
  [.setHeader "Content-Type" "text/event-stream", .setHeader "Cache-Control" "no-cache",
    .setHeader "Connection" "keep-alive", .setHeader "Access-Control-Allow-Origin" "*",
    .setHeader "Access-Control-Allow-Methods" "GET, OPTIONS",
    .setHeader "Access-Control-Allow-Headers" "Content-Type"]

/-- `sseHandler` (main.go lines 43-85). `flusher` tells whether the response writer is an
`http.Flusher` (the writers of `net/http` are). The result of the first `dec.Token()` is not
looked at (line 71). The deferred `body.Close()` runs when the handler returns after line 68. -/
def sseHandler (errorText : ErrorText) (flusher : Bool) (up : Upstream) : Run :=
  if !flusher then ⟨sseHeaders ++ [.httpError "Streaming unsupported!" 500], .returned⟩
  else
    match fetchAlbums up with
    | (ev, .error o) => ⟨sseHeaders ++ ev, o⟩
    | (ev, .ok (_, some e)) =>
      ⟨sseHeaders ++ ev ++ [.clientWrite ("data: " ++ e ++ " \n\n"), .flush], .returned⟩
    | (ev, .ok (resp, none)) =>
      let dec := (NewDecoder resp.Body).Token.1
      let r := sseLoop errorText (dec.toks.length + 1) dec
      ⟨sseHeaders ++ ev ++ r.events ++ [.bodyClose], r.outcome⟩

/-- The loop `for dec.More() { ... }` of `manualStreamDownloadAndStreamFlush` (main.go lines
126-135), at most `n` iterations: the events, and the decoder after the loop or the way the
process ended. -/
def fileLoop : Nat → Decoder → List Event × Except Outcome Decoder
  | 0, _ => ([], .error .unfinished)
  | n + 1, dec =>
    if dec.More then
      match dec.Decode with
      | (_, .error e) => ([.println (.errDecoding e)], .error (.exit 1))
      | (dec1, .ok a) =>
        (.encode (encodeAlbum a) :: .fileWrite "," :: (fileLoop n dec1).1, (fileLoop n dec1).2)
    else ([], .ok dec)

/-- The two results of a Go call returning `(value, error)`. -/
def goValue {α : Type} : Except DecodeErr α → Option α
  | .ok a => some a
  | .error _ => none

def goErr {α : Type} : Except DecodeErr α → Option DecodeErr
  | .ok _ => none
  | .error e => some e

/-- `manualStreamDownloadAndStreamFlush(body, file)` (main.go lines 111-143). In the branch
of line 115 the argument `err.Error()` of the first `Println` is evaluated first: with a nil
`err` that is a nil dereference. Writes to the file are recorded as issued (the program ignores
their results). -/
def manualStreamDownloadAndStreamFlush (body : Body) : Run :=
  let first := (NewDecoder body).Token
  let t := goValue first.2
  let err := goErr first.2
  if err.isSome || t != some (.delim '[') then
    match err with
    | none => ⟨[], .nilDeref⟩
    | some e =>
      ⟨[.println (.notAnArray e t), .bodyRead, .println .fullBody, .println (.payload "")],
        .exit 1⟩
  else
    let loop := fileLoop (first.1.toks.length + 1) first.1
    match loop.2 with
    | .error o => ⟨.fileWrite "[" :: loop.1, o⟩
    | .ok dec =>
      match goErr dec.Token.2 with
      | some e =>
        ⟨.fileWrite "[" :: loop.1 ++ [.println (.errClosingBracket e), .fileWrite "]"],
          .returned⟩
      | none => ⟨.fileWrite "[" :: loop.1 ++ [.fileWrite "]"], .returned⟩

/-- `streamToFile(ctx)` (main.go lines 87-109). `createErr` is the error of `os.Create`, if
any. The deferred `body.Close()` runs when the function returns and when it panics, not on
`os.Exit`. -/
def streamToFile (up : Upstream) (createErr : Option String) : Run :=
  match fetchAlbums up with
  | (ev, .error o) => ⟨ev, o⟩
  | (ev, .ok (resp, err)) =>
    if resp.StatusCode != 200 then
      match err with
      | none => ⟨ev, .nilDeref⟩
      | some e => ⟨ev ++ [.println (.errResponse e)], .exit 1⟩
    else
      match createErr with
      | some e => ⟨ev ++ [.println (.errCreatingFile e)], .exit 1⟩
      | none =>
        let r := manualStreamDownloadAndStreamFlush resp.Body
        match r.outcome with
        | .returned =>
          ⟨ev ++ .createFile "response.json" :: r.events ++
            [.println .streamingDuration, .bodyClose], .returned⟩
        | .nilDeref => ⟨ev ++ .createFile "response.json" :: r.events ++ [.bodyClose], .nilDeref⟩
        | o => ⟨ev ++ .createFile "response.json" :: r.events, o⟩

/-! ## Well-formed input and the effects of the loops -/

/-- The tokens `v` are exactly one complete JSON value. -/
def IsValue (v : List Tok) : Prop :=
  scanValue .beginValue [] v = .done v []

/-- The tokens `v` are one complete JSON value that decodes to the album `p` without error. -/
def DecodesTo (v : List Tok) (p : album) : Prop :=
  IsValue v ∧ unmarshalAlbum v = .ok p

/-- The tokens of the elements after the first: each preceded by its comma. -/
def elemsAfter (vs : List (List Tok)) : List Tok :=
  vs.flatMap (fun v => Tok.comma :: v)

/-- The tokens of the elements of an array, separated by commas. -/
def arrayElems : List (List Tok) → List Tok
  | [] => []
  | v :: vs => v ++ elemsAfter vs

/-- The body is a JSON array whose elements decode, in order, to the albums `ps` (whatever
follows the closing bracket is never read). -/
def IsPhotoArray (body : Body) (ps : List album) : Prop :=
  ∃ vs rest, List.Forall₂ DecodesTo vs ps ∧
    (tokenize body).toks = Tok.lbrack :: (arrayElems vs ++ Tok.rbrack :: rest)

/-- The events of the export loop for the albums `ps`. -/
def fileElemEvents : List album → List Event
  | [] => []
  | p :: ps => .encode (encodeAlbum p) :: .fileWrite "," :: fileElemEvents ps

/-- The events of the SSE loop for the albums `ps`. -/
def sseElemEvents : List album → List Event
  | [] => []
  | p :: ps => .clientWrite (titleFrame p.Title) :: .flush :: .sleep 1 :: sseElemEvents ps

/-- The token state of the decoder after the elements `vs` of an array. -/
def afterElems : List (List Tok) → TokenState
  | [] => .arrayStart
  | _ :: _ => .arrayComma

/-- What `manualStreamDownloadAndStreamFlush` does once its loop has ended. -/
def closeArray (loop : List Event × Except Outcome Decoder) : Run :=
  match loop.2 with
  | .error o => ⟨.fileWrite "[" :: loop.1, o⟩
  | .ok dec =>
    match goErr dec.Token.2 with
    | some e =>
      ⟨.fileWrite "[" :: loop.1 ++ [.println (.errClosingBracket e), .fileWrite "]"], .returned⟩
    | none => ⟨.fileWrite "[" :: loop.1 ++ [.fileWrite "]"], .returned⟩

/-- After the elements `vs` the stream goes on with `rest`, and the next element fails to
decode with error `e`: the decoder reports more input and its `Decode` returns `e`. -/
def NextElementFails (s : Stream) (vs : List (List Tok)) (rest : List Tok) (e : DecodeErr) :
    Prop :=
  Decoder.More ⟨rest, s.stop, afterElems vs, [.topValue], none⟩ = true ∧
    (Decoder.Decode ⟨rest, s.stop, afterElems vs, [.topValue], none⟩).2 = .error e

/-- Where the body reader fails, relative to the elements delivered completely. -/
inductive Break
  /-- before the opening bracket: only white space was delivered -/
  | beforeOpen
  /-- exactly at the boundary after the last complete element (after the opening bracket when
  there is none): only white space was delivered after it -/
  | boundary
  /-- inside the next element: after the separator (when an element precedes), the complete
  tokens `w` of the next element were delivered, then possibly the beginning of its next
  token (`midToken`, telling whether that token is a string) -/
  | inside (w : List Tok) (midToken : Option Bool)
  deriving DecidableEq, Repr

/-- The comma that precedes the next element when an element was already delivered. -/
def separator : List (List Tok) → List Tok
  | [] => []
  | _ :: _ => [.comma]

/-- The tokens of the next element that were delivered completely before the break, with the
separator before them. -/
def Break.pendingToks (vs : List (List Tok)) : Break → List Tok
  | .inside w _ => separator vs ++ w
  | _ => []

/-- The stream of a body whose reader fails with `e` at the break `b`, the elements `vs`
having been delivered completely. -/
def deliveredStream (vs : List (List Tok)) (e : String) : Break → Stream
  | .beforeOpen => ⟨[], .clean (.fail e)⟩
  | .boundary => ⟨.lbrack :: arrayElems vs, .clean (.fail e)⟩
  | .inside w none => ⟨.lbrack :: (arrayElems vs ++ (separator vs ++ w)), .clean (.fail e)⟩
  | .inside w (some q) =>
    ⟨.lbrack :: (arrayElems vs ++ (separator vs ++ w)), .cut q (.fail e)⟩

/-- Whether a token can be cut short by the end of the data, and is then a string: `some true`
for a string, `some false` for a number or literal, `none` for the one-character tokens. -/
def Tok.cutKind : Tok → Option Bool
  | .str _ => some true
  | .num _ | .litTrue | .litFalse | .litNull => some false
  | _ => none

/-- The break is consistent with the array it cuts, `vs` being the elements delivered
completely and `next` the tokens of the element after them: nothing precedes a missing opening
bracket; inside the next element the delivered tokens `w` are a proper beginning of `next`, and
a token cut short is the beginning of the token of `next` that follows `w`. -/
def Break.Valid (vs : List (List Tok)) (next : List Tok) : Break → Prop
  | .beforeOpen => vs = []
  | .boundary => True
  | .inside w mid => ∃ t u, next = w ++ t :: u ∧ ∀ q, mid = some q → t.cutKind = some q

/-! ### Sample inputs -/

/-- The input of the spec's example: one Photo. -/
def onePhotoBody : Body :=
  ⟨"[\x7b\"albumId\":1,\"id\":1,\"title\":\"a\",\"url\":\"u\",\"thumbnailUrl\":\"t\"\x7d]".toList,
    .eof⟩

def photoA : album := ⟨1, 1, "a", "u", "t"⟩

def photoB : album := ⟨1, 2, "b <1>", "v", "w"⟩

/-- The tokens of an object with the five members of a Photo. -/
def photoToks (albumId id title url thumb : String) : List Tok :=
  [.lbrace, .str "albumId", .colon, .num albumId, .comma, .str "id", .colon, .num id, .comma,
    .str "title", .colon, .str title, .comma, .str "url", .colon, .str url, .comma,
    .str "thumbnailUrl", .colon, .str thumb, .rbrace]

/-- A body of two Photos, with white space and an escape. -/
def twoPhotosBody : Body :=
  ⟨("[\x7b\"albumId\":1,\"id\":1,\"title\":\"a\",\"url\":\"u\",\"thumbnailUrl\":\"t\"\x7d,\n" ++
    " \x7b\"albumId\": 1, \"id\": 2, \"title\": \"b \\u003c1>\", \"url\": \"v\", " ++
    "\"thumbnailUrl\": \"w\"\x7d ]\n").toList, .eof⟩

/-- A body whose second element has a number where the title must be a string. -/
def badSecondBody : Body :=
  ⟨("[\x7b\"albumId\":1,\"id\":1,\"title\":\"a\",\"url\":\"u\",\"thumbnailUrl\":\"t\"\x7d," ++
    "\x7b\"title\":5\x7d,\x7b\"title\":\"c\"\x7d]").toList, .eof⟩

/-- The first Photo of a two element array, then the reader fails (deadline expiry). -/
def cutAtBoundaryBody : Body :=
  ⟨"[\x7b\"albumId\":1,\"id\":1,\"title\":\"a\",\"url\":\"u\",\"thumbnailUrl\":\"t\"\x7d".toList,
    .fail "context deadline exceeded"⟩

/-- The first Photo, the separator and part of the second, then the reader fails: a beginning
of `twoPhotosBody` that ends inside the key `title`. -/
def cutInsideBody : Body :=
  ⟨("[\x7b\"albumId\":1,\"id\":1,\"title\":\"a\",\"url\":\"u\",\"thumbnailUrl\":\"t\"\x7d,\n" ++
    " \x7b\"albumId\": 1, \"id\": 2, \"ti").toList, .fail "context deadline exceeded"⟩

/-- A sample `err.Error()`. -/
def sampleErrorText : ErrorText := fun _ => "decode error"

/-- A body that is a JSON object, not an array. -/
def emptyObjectBody : Body := ⟨"\x7b\x7d".toList, .eof⟩

/-- A body that is a number followed by a Photo object. -/
def numberThenPhotoBody : Body :=
  ⟨"1 \x7b\"albumId\":1,\"id\":1,\"title\":\"a\",\"url\":\"u\",\"thumbnailUrl\":\"t\"\x7d".toList,
    .eof⟩

/-- A body that is a single number. -/
def numberBody : Body := ⟨"7".toList, .eof⟩

/-- The tokens of the input are one complete JSON value and nothing else. -/
def isValidJson (s : String) : Bool :=
  match tokenize ⟨s.data, .eof⟩ with
  | ⟨toks, .clean _⟩ => decide (scanValue .beginValue [] toks = .done toks [])
  | _ => false

/-! ### Canonical bodies -/

/-- Running the lexer over a piece of data: the tokens it emits and the state it reaches, or
`none` at an invalid character. -/
def lexRun : LexSt → List Char → Option (List Tok × LexSt)
  | st, [] => some ([], st)
  | st, c :: cs =>
    match lexStep st c with
    | .bad _ => none
    | .next st1 ts =>
      match lexRun st1 cs with
      | none => none
      | some r => some (ts ++ r.1, r.2)

/-- The tokens `ts`, then the result `r` of lexing what follows. -/
def emitThen (ts : List Tok) (r : List Tok × LexEnd) : List Tok × LexEnd :=
  (ts ++ r.1, r.2)

/-- The tokens of the object the encoder writes for an album. -/
def albumToks (a : album) : List Tok :=
  photoToks (toString a.AlbumId) (toString a.Id) a.Title a.Url a.ThumbnailUrl

/-- The fields of the album fit Go's 64-bit `int`. -/
def album.InRange (a : album) : Prop :=
  (-(2 : Int) ^ 63 ≤ a.AlbumId ∧ a.AlbumId < (2 : Int) ^ 63) ∧
    (-(2 : Int) ^ 63 ≤ a.Id ∧ a.Id < (2 : Int) ^ 63)

/-- The elements of an array as `json.Marshal` writes them: the objects, separated by commas. -/
def canonicalElems : List album → List Char
  | [] => []
  | p :: ps => (marshalAlbum p).data ++ ps.flatMap (fun q => ',' :: (marshalAlbum q).data)

/-- The body `json.Marshal` writes for a slice of albums. -/
def canonicalBody (ps : List album) : Body :=
  ⟨'[' :: (canonicalElems ps ++ [']']), .eof⟩

/-! ## Lemmas on the scanner, the decoder and the loops -/

theorem scanValue_append (rest : List Tok) :
    ∀ (ts : List Tok) (st : ScanSt) (stack : List PState) (v r : List Tok),
      scanValue st stack ts = .done v r → scanValue st stack (ts ++ rest) = .done v (r ++ rest) := by
  intro ts
  induction ts with
  | nil => intro st stack v r h; simp [scanValue] at h
  | cons t ts ih =>
    intro st stack v r h
    simp only [List.cons_append, scanValue] at h ⊢
    cases hs : scanStep st stack t with
    | bad => simp [hs] at h
    | fin =>
      simp only [hs, ScanRes.done.injEq] at h ⊢
      obtain ⟨h1, h2⟩ := h
      subst h1 h2
      simp
    | cont st1 stack1 =>
      simp only [hs] at h ⊢
      cases hr : scanValue st1 stack1 ts with
      | bad => simp [hr] at h
      | more st2 => simp [hr] at h
      | done v1 r1 =>
        simp only [hr, ScanRes.done.injEq] at h
        obtain ⟨h1, h2⟩ := h
        subst h1 h2
        simp [ih st1 stack1 v1 r1 hr]

theorem scanValue_split :
    ∀ (ts : List Tok) (st : ScanSt) (stack : List PState) (v r : List Tok),
      scanValue st stack ts = .done v r → ts = v ++ r ∧ v ≠ [] := by
  intro ts
  induction ts with
  | nil => intro st stack v r h; simp [scanValue] at h
  | cons t ts ih =>
    intro st stack v r h
    simp only [scanValue] at h
    cases hs : scanStep st stack t with
    | bad => simp [hs] at h
    | fin =>
      simp only [hs, ScanRes.done.injEq] at h
      obtain ⟨h1, h2⟩ := h
      subst h1 h2
      simp
    | cont st1 stack1 =>
      simp only [hs] at h
      cases hr : scanValue st1 stack1 ts with
      | bad => simp [hr] at h
      | more st2 => simp [hr] at h
      | done v1 r1 =>
        simp only [hr, ScanRes.done.injEq] at h
        obtain ⟨h1, h2⟩ := h
        subst h1 h2
        simp [(ih st1 stack1 v1 r1 hr).1]

theorem IsValue.scan_append {v : List Tok} (h : IsValue v) (rest : List Tok) :
    scanValue .beginValue [] (v ++ rest) = .done v rest := by
  have := scanValue_append rest v .beginValue [] v [] h
  simpa using this

/-- A complete value begins with a token that is neither a closing bracket nor a closing brace
nor a comma. -/
theorem IsValue.head {v : List Tok} (h : IsValue v) :
    ∃ t ts, v = t :: ts ∧ t ≠ .rbrack ∧ t ≠ .rbrace ∧ t ≠ .comma := by
  cases v with
  | nil => simp [IsValue, scanValue] at h
  | cons t ts =>
    refine ⟨t, ts, rfl, ?_, ?_, ?_⟩ <;>
    · rintro rfl
      simp [IsValue, scanValue, scanStep, beginStep] at h

theorem More_comma (ts : List Tok) (stop : Stop) (st : TokenState) (stack : List TokenState)
    (err : Option DecodeErr) : Decoder.More ⟨.comma :: ts, stop, st, stack, err⟩ = true := by
  simp [Decoder.More, Decoder.peek]

theorem More_rbrack (ts : List Tok) (stop : Stop) (st : TokenState) (stack : List TokenState)
    (err : Option DecodeErr) : Decoder.More ⟨.rbrack :: ts, stop, st, stack, err⟩ = false := by
  simp [Decoder.More, Decoder.peek]

theorem More_value {v : List Tok} (h : IsValue v) (ts : List Tok) (stop : Stop)
    (st : TokenState) (stack : List TokenState) (err : Option DecodeErr) :
    Decoder.More ⟨v ++ ts, stop, st, stack, err⟩ = true := by
  obtain ⟨t, us, rfl, h1, h2, -⟩ := h.head
  cases t <;> simp_all [Decoder.More, Decoder.peek]

/-- Decoding an element after the first: the comma and the value are consumed. -/
theorem Decode_comma {v : List Tok} {p : album} (h : DecodesTo v p) (ts : List Tok)
    (stop : Stop) (stack : List TokenState) :
    Decoder.Decode ⟨.comma :: (v ++ ts), stop, .arrayComma, stack, none⟩ =
      (⟨ts, stop, .arrayComma, stack, none⟩, .ok p) := by
  simp [Decoder.Decode, Decoder.tokenPrepareForDecode, Decoder.peek, TokenState.valueAllowed,
    Decoder.readValue, h.1.scan_append, TokenState.valueEnd, h.2]

/-- Decoding the first element of an array. -/
theorem Decode_first {v : List Tok} {p : album} (h : DecodesTo v p) (ts : List Tok)
    (stop : Stop) (stack : List TokenState) :
    Decoder.Decode ⟨v ++ ts, stop, .arrayStart, stack, none⟩ =
      (⟨ts, stop, .arrayComma, stack, none⟩, .ok p) := by
  simp [Decoder.Decode, Decoder.tokenPrepareForDecode, TokenState.valueAllowed,
    Decoder.readValue, h.1.scan_append, TokenState.valueEnd, h.2]

theorem length_le_elemsAfter (vs : List (List Tok)) : vs.length ≤ (elemsAfter vs).length := by
  induction vs with
  | nil => simp [elemsAfter]
  | cons v vs ih =>
    simp only [elemsAfter, List.flatMap_cons, List.length_cons, List.length_append] at ih ⊢
    omega

/-- The export loop consumes the elements `vs` (each after its comma) and goes on with what
follows them. -/
theorem fileLoop_elems (stop : Stop) (stack : List TokenState) (ts : List Tok) :
    ∀ (vs : List (List Tok)) (ps : List album), List.Forall₂ DecodesTo vs ps → ∀ m : Nat,
      fileLoop (vs.length + m) ⟨elemsAfter vs ++ ts, stop, .arrayComma, stack, none⟩ =
        (fileElemEvents ps ++ (fileLoop m ⟨ts, stop, .arrayComma, stack, none⟩).1,
          (fileLoop m ⟨ts, stop, .arrayComma, stack, none⟩).2) := by
  intro vs ps h
  induction h with
  | nil => intro m; simp [elemsAfter, fileElemEvents]
  | @cons v p vs ps hd _ ih =>
    intro m
    have e1 : (v :: vs).length + m = (vs.length + m) + 1 := by simp; omega
    rw [e1]
    simp only [elemsAfter, List.flatMap_cons, List.cons_append, List.append_assoc, fileLoop,
      More_comma, if_true, Decode_comma hd]
    have ih2 := ih m
    simp only [elemsAfter] at ih2
    rw [ih2]
    simp [fileElemEvents]

/-- The SSE loop consumes the elements `vs` (each after its comma) and goes on with what
follows them. -/
theorem sseLoop_elems (errorText : ErrorText) (stop : Stop) (stack : List TokenState)
    (ts : List Tok) :
    ∀ (vs : List (List Tok)) (ps : List album), List.Forall₂ DecodesTo vs ps → ∀ m : Nat,
      sseLoop errorText (vs.length + m) ⟨elemsAfter vs ++ ts, stop, .arrayComma, stack, none⟩ =
        ⟨sseElemEvents ps ++ (sseLoop errorText m ⟨ts, stop, .arrayComma, stack, none⟩).events,
          (sseLoop errorText m ⟨ts, stop, .arrayComma, stack, none⟩).outcome⟩ := by
  intro vs ps h
  induction h with
  | nil => intro m; simp [elemsAfter, sseElemEvents]
  | @cons v p vs ps hd _ ih =>
    intro m
    have e1 : (v :: vs).length + m = (vs.length + m) + 1 := by simp; omega
    rw [e1]
    simp only [elemsAfter, List.flatMap_cons, List.cons_append, List.append_assoc, sseLoop,
      More_comma, if_true, Decode_comma hd]
    have ih2 := ih m
    simp only [elemsAfter] at ih2
    rw [ih2]
    simp [sseElemEvents]

/-- From the opening bracket on, the export loop consumes the elements `vs` and goes on with
what follows them. -/
theorem fileLoop_array (stop : Stop) (stack : List TokenState) (ts : List Tok)
    (vs : List (List Tok)) (ps : List album) (h : List.Forall₂ DecodesTo vs ps) (m : Nat) :
    fileLoop (vs.length + m) ⟨arrayElems vs ++ ts, stop, .arrayStart, stack, none⟩ =
      (fileElemEvents ps ++ (fileLoop m ⟨ts, stop, afterElems vs, stack, none⟩).1,
        (fileLoop m ⟨ts, stop, afterElems vs, stack, none⟩).2) := by
  cases h with
  | nil => simp [arrayElems, fileElemEvents, afterElems]
  | @cons v p vs ps hd tl =>
    have e1 : (v :: vs).length + m = (vs.length + m) + 1 := by simp; omega
    rw [e1]
    simp only [arrayElems, List.append_assoc, fileLoop, More_value hd.1, if_true,
      Decode_first hd, fileLoop_elems stop stack ts vs ps tl m, afterElems]
    simp [fileElemEvents]

/-- From the opening bracket on, the SSE loop consumes the elements `vs` and goes on with what
follows them. -/
theorem sseLoop_array (errorText : ErrorText) (stop : Stop) (stack : List TokenState)
    (ts : List Tok) (vs : List (List Tok)) (ps : List album)
    (h : List.Forall₂ DecodesTo vs ps) (m : Nat) :
    sseLoop errorText (vs.length + m) ⟨arrayElems vs ++ ts, stop, .arrayStart, stack, none⟩ =
      ⟨sseElemEvents ps ++ (sseLoop errorText m ⟨ts, stop, afterElems vs, stack, none⟩).events,
        (sseLoop errorText m ⟨ts, stop, afterElems vs, stack, none⟩).outcome⟩ := by
  cases h with
  | nil => simp [arrayElems, sseElemEvents, afterElems]
  | @cons v p vs ps hd tl =>
    have e1 : (v :: vs).length + m = (vs.length + m) + 1 := by simp; omega
    rw [e1]
    simp only [arrayElems, List.append_assoc, sseLoop, More_value hd.1, if_true,
      Decode_first hd, sseLoop_elems errorText stop stack ts vs ps tl m, afterElems]
    simp [sseElemEvents]

/-- The bound the program's loops start with leaves at least one iteration after the elements
`vs`. -/
theorem fuel_split (vs : List (List Tok)) (ps : List album) (h : List.Forall₂ DecodesTo vs ps)
    (ts : List Tok) : ∃ m, (arrayElems vs ++ ts).length + 1 = vs.length + (m + 1) := by
  have hlen : vs.length ≤ (arrayElems vs).length := by
    cases h with
    | nil => simp
    | @cons v p vs ps hd tl =>
      obtain ⟨t, us, rfl, -⟩ := hd.1.head
      have := length_le_elemsAfter vs
      simp only [arrayElems, List.length_cons, List.length_append]
      omega
  refine ⟨(arrayElems vs ++ ts).length - vs.length, ?_⟩
  simp only [List.length_append] at *
  omega

/-- Reading the opening bracket of a body that begins with one. -/
theorem Token_lbrack (body : Body) (ts : List Tok) (h : (tokenize body).toks = .lbrack :: ts) :
    (NewDecoder body).Token =
      (⟨ts, (tokenize body).stop, .arrayStart, [.topValue], none⟩, .ok (.delim '[')) := by
  simp [NewDecoder, Decoder.Token, h, tokenLoop, TokenState.valueAllowed]

theorem fileLoop_no_more (m : Nat) (d : Decoder) (h : d.More = false) :
    fileLoop (m + 1) d = ([], .ok d) := by
  simp [fileLoop, h]

theorem fileLoop_decode_error (m : Nat) (d : Decoder) (e : DecodeErr) (h : d.More = true)
    (he : d.Decode.2 = .error e) :
    fileLoop (m + 1) d = ([.println (.errDecoding e)], .error (.exit 1)) := by
  rcases hd : d.Decode with ⟨d1, r⟩
  rw [hd] at he
  simp only at he
  subst he
  simp [fileLoop, h, hd]

theorem sseLoop_no_more (errorText : ErrorText) (m : Nat) (d : Decoder) (h : d.More = false) :
    sseLoop errorText (m + 1) d = ⟨[], .returned⟩ := by
  simp [sseLoop, h]

theorem sseLoop_decode_error (errorText : ErrorText) (m : Nat) (d : Decoder) (e : DecodeErr)
    (h : d.More = true) (he : d.Decode.2 = .error e) :
    sseLoop errorText (m + 1) d =
      ⟨[.clientWrite (decodeErrorFrame errorText e), .flush], .returned⟩ := by
  rcases hd : d.Decode with ⟨d1, r⟩
  rw [hd] at he
  simp only at he
  subst he
  simp [sseLoop, h, hd]

theorem encodedElements_append (xs ys : List Event) :
    encodedElements (xs ++ ys) = encodedElements xs ++ encodedElements ys := by
  induction xs with
  | nil => rfl
  | cons x xs ih => cases x <;> simp [encodedElements, ih]

theorem fileWrites_append (xs ys : List Event) :
    fileWrites (xs ++ ys) = fileWrites xs ++ fileWrites ys := by
  induction xs with
  | nil => rfl
  | cons x xs ih => cases x <;> simp [fileWrites, ih]

theorem clientWrites_append (xs ys : List Event) :
    clientWrites (xs ++ ys) = clientWrites xs ++ clientWrites ys := by
  induction xs with
  | nil => rfl
  | cons x xs ih => cases x <;> simp [clientWrites, ih]

theorem encodedElements_fileElemEvents (ps : List album) :
    encodedElements (fileElemEvents ps) = ps.map encodeAlbum := by
  induction ps with
  | nil => rfl
  | cons p ps ih => simp [fileElemEvents, encodedElements, ih]

theorem fileElemEvents_eq (ps : List album) :
    fileElemEvents ps =
      ps.flatMap (fun p => [Event.encode (marshalAlbum p ++ "\n"), Event.fileWrite ","]) := by
  induction ps with
  | nil => rfl
  | cons p ps ih => simp [fileElemEvents, encodeAlbum, ih]

theorem clientWrites_sseElemEvents (ps : List album) :
    clientWrites (sseElemEvents ps) = ps.map (fun p => titleFrame p.Title) := by
  induction ps with
  | nil => rfl
  | cons p ps ih => simp [sseElemEvents, clientWrites, ih]

theorem sseElemEvents_eq (ps : List album) :
    sseElemEvents ps =
      ps.flatMap (fun p =>
        [Event.clientWrite ("data: Title: " ++ p.Title ++ "\n\n"), Event.flush, Event.sleep 1]) := by
  induction ps with
  | nil => rfl
  | cons p ps ih => simp [sseElemEvents, titleFrame, ih]

/-- The export of a body that begins with an opening bracket: the loop, then the closing. -/
theorem manualStream_lbrack (body : Body) (ts : List Tok)
    (h : (tokenize body).toks = .lbrack :: ts) :
    manualStreamDownloadAndStreamFlush body =
      closeArray (fileLoop (ts.length + 1)
        ⟨ts, (tokenize body).stop, .arrayStart, [.topValue], none⟩) := by
  simp only [manualStreamDownloadAndStreamFlush, Token_lbrack body ts h, closeArray, goValue,
    goErr]
  simp

/-- The SSE handler on a response whose body begins with an opening bracket. -/
theorem sseHandler_lbrack (errorText : ErrorText) (resp : Response) (ts : List Tok)
    (h : (tokenize resp.Body).toks = .lbrack :: ts) :
    sseHandler errorText true (.response resp) =
      ⟨sseHeaders ++ (sseLoop errorText (ts.length + 1)
          ⟨ts, (tokenize resp.Body).stop, .arrayStart, [.topValue], none⟩).events ++
          [.bodyClose],
        (sseLoop errorText (ts.length + 1)
          ⟨ts, (tokenize resp.Body).stop, .arrayStart, [.topValue], none⟩).outcome⟩ := by
  simp [sseHandler, fetchAlbums, Token_lbrack resp.Body ts h]

theorem clientWrites_sseHeaders : clientWrites sseHeaders = [] := rfl

/-! ### The loop bounds are never reached -/

theorem tokenPrepareForDecode_length (d d1 : Decoder) (h : d.tokenPrepareForDecode = .ok d1) :
    d1.toks.length ≤ d.toks.length := by
  unfold Decoder.tokenPrepareForDecode at h
  split at h
  · split at h
    · simp at h
    · injection h with h; subst h; simp
    · simp at h
  · split at h
    · simp at h
    · injection h with h; subst h; simp
    · simp at h
  · injection h with h; subst h; exact Nat.le_refl _

/-- A successful `Decode` consumes at least one token. -/
theorem Decode_ok_length (d d1 : Decoder) (a : album) (h : d.Decode = (d1, .ok a)) :
    d1.toks.length < d.toks.length := by
  unfold Decoder.Decode at h
  split at h
  · simp at h
  · split at h
    · simp at h
    · rename_i d2 hp
      have hle := tokenPrepareForDecode_length d d2 hp
      split at h
      · simp at h
      · split at h
        · simp at h
        · rename_i v rest hr
          unfold Decoder.readValue at hr
          split at hr
          · rename_i v1 r1 hs
            obtain ⟨h1, h2⟩ := scanValue_split _ _ _ _ _ hs
            injection hr with hr
            injection hr with hv hrest
            subst hv hrest
            injection h with hd _
            subst hd
            have : 0 < v1.length := List.length_pos.mpr h2
            have hl : d2.toks.length = v1.length + r1.length := by rw [h1]; simp
            simp only
            omega
          · simp at hr
          · simp at hr

/-- The export loop ends within its bound whenever the bound exceeds the number of tokens. -/
theorem fileLoop_bound : ∀ (n : Nat) (d : Decoder), d.toks.length < n →
    (fileLoop n d).2 ≠ .error .unfinished := by
  intro n
  induction n with
  | zero => intro d h; omega
  | succ n ih =>
    intro d h
    unfold fileLoop
    split
    · rcases hd : d.Decode with ⟨d1, r⟩
      cases r with
      | error e => simp
      | ok a =>
        simp only
        exact ih d1 (by have := Decode_ok_length d d1 a hd; omega)
    · simp

/-- The SSE loop ends within its bound whenever the bound exceeds the number of tokens. -/
theorem sseLoop_bound (errorText : ErrorText) : ∀ (n : Nat) (d : Decoder), d.toks.length < n →
    (sseLoop errorText n d).outcome ≠ .unfinished := by
  intro n
  induction n with
  | zero => intro d h; omega
  | succ n ih =>
    intro d h
    unfold sseLoop
    split
    · rcases hd : d.Decode with ⟨d1, r⟩
      cases r with
      | error e => simp
      | ok a =>
        simp only
        exact ih d1 (by have := Decode_ok_length d d1 a hd; omega)
    · simp

/-- On every body `manualStreamDownloadAndStreamFlush` ends: it returns, exits or panics. -/
theorem manualStream_total (body : Body) :
    (manualStreamDownloadAndStreamFlush body).outcome ≠ .unfinished := by
  unfold manualStreamDownloadAndStreamFlush
  simp only
  split
  · split <;> simp
  · have hb := fileLoop_bound ((NewDecoder body).Token.1.toks.length + 1)
      (NewDecoder body).Token.1 (Nat.lt_succ_self _)
    split
    · rename_i o ho
      intro hc
      simp only at hc
      rw [hc] at ho
      exact hb ho
    · split <;> simp

/-- On every request `sseHandler` ends: it returns or the process exits. -/
theorem sseHandler_total (errorText : ErrorText) (flusher : Bool) (up : Upstream) :
    (sseHandler errorText flusher up).outcome ≠ .unfinished := by
  unfold sseHandler
  split
  · simp
  · cases up with
    | reqErr e => simp [fetchAlbums]
    | doErr e => simp [fetchAlbums]
    | response r =>
      simp only [fetchAlbums]
      exact sseLoop_bound errorText _ _ (Nat.lt_succ_self _)

/-! ### A failing element, and a failing reader -/

/-- The export when the element after `vs` fails to decode. -/
theorem manualStream_next_fails (body : Body) (vs : List (List Tok)) (ps : List album)
    (rest : List Tok) (e : DecodeErr) (hv : List.Forall₂ DecodesTo vs ps)
    (htoks : (tokenize body).toks = .lbrack :: (arrayElems vs ++ rest))
    (hfail : NextElementFails (tokenize body) vs rest e) :
    manualStreamDownloadAndStreamFlush body =
      ⟨.fileWrite "[" :: (fileElemEvents ps ++ [.println (.errDecoding e)]), .exit 1⟩ := by
  obtain ⟨m, hm⟩ := fuel_split vs ps hv rest
  rw [manualStream_lbrack body (arrayElems vs ++ rest) htoks, hm,
    fileLoop_array _ _ _ vs ps hv, fileLoop_decode_error _ _ e hfail.1 hfail.2]
  simp [closeArray]

/-- The SSE handler when the element after `vs` fails to decode. -/
theorem sseHandler_next_fails (errorText : ErrorText) (resp : Response)
    (vs : List (List Tok)) (ps : List album) (rest : List Tok) (e : DecodeErr)
    (hv : List.Forall₂ DecodesTo vs ps)
    (htoks : (tokenize resp.Body).toks = .lbrack :: (arrayElems vs ++ rest))
    (hfail : NextElementFails (tokenize resp.Body) vs rest e) :
    sseHandler errorText true (.response resp) =
      ⟨sseHeaders ++ sseElemEvents ps ++
        [.clientWrite (decodeErrorFrame errorText e), .flush, .bodyClose], .returned⟩ := by
  obtain ⟨m, hm⟩ := fuel_split vs ps hv rest
  rw [sseHandler_lbrack errorText resp (arrayElems vs ++ rest) htoks, hm,
    sseLoop_array _ _ _ _ vs ps hv, sseLoop_decode_error _ _ _ e hfail.1 hfail.2]
  simp

/-- The tokens `w` before the end of a value leave the scanner asking for more, in a state
that accepts the token that follows them. -/
theorem scanValue_prefix : ∀ (w : List Tok) (st : ScanSt) (stack : List PState) (t : Tok)
    (u v r : List Tok), scanValue st stack (w ++ t :: u) = .done v r → w.length < v.length →
      ∃ st1 stack1, scanValue st stack w = .more st1 ∧ scanStep st1 stack1 t ≠ .bad := by
  intro w
  induction w with
  | nil =>
    intro st stack t u v r h _
    refine ⟨st, stack, rfl, ?_⟩
    intro hb
    simp [scanValue, hb] at h
  | cons a w ih =>
    intro st stack t u v r h hlen
    have h : scanValue st stack (a :: (w ++ t :: u)) = .done v r := h
    simp only [scanValue] at h ⊢
    cases hs : scanStep st stack a with
    | bad => simp [hs] at h
    | fin =>
      simp only [hs, ScanRes.done.injEq] at h
      obtain ⟨h1, -⟩ := h
      subst h1
      simp at hlen
    | cont st2 stack2 =>
      simp only [hs] at h ⊢
      cases hr : scanValue st2 stack2 (w ++ t :: u) with
      | bad => simp [hr] at h
      | more st3 => simp [hr] at h
      | done v2 r2 =>
        simp only [hr, ScanRes.done.injEq] at h
        obtain ⟨h1, -⟩ := h
        subst h1
        obtain ⟨st1, stack1, hm, hb⟩ :=
          ih st2 stack2 t u v2 r2 hr (by simpa using hlen)
        exact ⟨st1, stack1, by simp [hm], hb⟩

/-- A token that the scanner accepts and that can be cut short may begin in that state. -/
theorem cutAllowed_of_step (st : ScanSt) (stack : List PState) (t : Tok) (q : Bool)
    (h : scanStep st stack t ≠ .bad) (hq : t.cutKind = some q) : cutAllowed st q = true := by
  cases st <;> cases t <;>
    simp_all [Tok.cutKind, cutAllowed, scanStep, beginStep] <;>
    (cases stack with
      | nil => simp_all
      | cons s stack => cases s <;> simp_all)

/-- After the delivered elements, a reader that fails at the boundary or inside the next
element makes `More` answer true and `Decode` return the reader's error. -/
theorem break_next_fails (vs : List (List Tok)) (next : List Tok) (e : String) (b : Break)
    (hnext : IsValue next) (h : b.Valid vs next) (hb : b ≠ .beforeOpen) :
    NextElementFails (deliveredStream vs e b) vs (b.pendingToks vs) (.read e) := by
  cases b with
  | beforeOpen => exact absurd rfl hb
  | boundary =>
    cases vs <;> constructor <;>
      simp [deliveredStream, Break.pendingToks, afterElems, Decoder.More, Decoder.peek,
        endOfInput, Decoder.Decode, Decoder.tokenPrepareForDecode, TokenState.valueAllowed, Decoder.readValue, scanValue,
        Decoder.endErr]
  | inside w mid =>
    obtain ⟨t, u, hn, hmid⟩ := h
    have hscan : scanValue .beginValue [] (w ++ t :: u) = .done (w ++ t :: u) [] := by
      rw [← hn]; exact hnext
    obtain ⟨st1, stack1, hm, hstep⟩ :=
      scanValue_prefix w .beginValue [] t u _ _ hscan (by simp)
    have hcut : ∀ q, mid = some q → cutAllowed st1 q = true :=
      fun q hq => cutAllowed_of_step st1 stack1 t q hstep (hmid q hq)
    have hhead : ∀ a ws, w = a :: ws → a ≠ .rbrack ∧ a ≠ .rbrace := by
      intro a ws hw
      subst hw
      constructor <;>
      · rintro rfl
        simp [scanValue, scanStep, beginStep] at hm
    cases vs with
    | nil =>
      constructor
      · cases w with
        | nil =>
          cases mid <;>
            simp [deliveredStream, Break.pendingToks, separator, afterElems, Decoder.More, Decoder.peek,
              endOfInput]
        | cons a ws =>
          obtain ⟨h1, h2⟩ := hhead a ws rfl
          cases mid <;> cases a <;>
            simp_all [deliveredStream, Break.pendingToks, separator, afterElems, Decoder.More, Decoder.peek]
      · cases mid with
        | none =>
          simp [deliveredStream, Break.pendingToks, separator, afterElems, Decoder.Decode,
            Decoder.tokenPrepareForDecode, TokenState.valueAllowed, Decoder.readValue, hm,
            Decoder.endErr]
        | some q =>
          simp [deliveredStream, Break.pendingToks, separator, afterElems, Decoder.Decode,
            Decoder.tokenPrepareForDecode, TokenState.valueAllowed, Decoder.readValue, hm,
            Decoder.endErr, hcut q rfl]
    | cons v vs =>
      constructor
      · cases mid <;>
          simp [deliveredStream, Break.pendingToks, separator, afterElems, Decoder.More, Decoder.peek]
      · cases mid with
        | none =>
          simp [deliveredStream, Break.pendingToks, separator, afterElems, Decoder.Decode,
            Decoder.tokenPrepareForDecode, Decoder.peek, TokenState.valueAllowed,
            Decoder.readValue, hm, Decoder.endErr]
        | some q =>
          simp [deliveredStream, Break.pendingToks, separator, afterElems, Decoder.Decode,
            Decoder.tokenPrepareForDecode, Decoder.peek, TokenState.valueAllowed,
            Decoder.readValue, hm, Decoder.endErr, hcut q rfl]

/-- The export of a body whose reader fails before the opening bracket: it prints the
error and the body and exits with status 1. -/
theorem manualStream_break_beforeOpen (body : Body) (e : String) (vs : List (List Tok))
    (hs : tokenize body = deliveredStream vs e .beforeOpen) :
    manualStreamDownloadAndStreamFlush body =
      ⟨[.println (.notAnArray (.read e) none), .bodyRead, .println .fullBody,
        .println (.payload "")], .exit 1⟩ := by
  simp [manualStreamDownloadAndStreamFlush, NewDecoder, hs, deliveredStream, Decoder.Token,
    tokenLoop, goValue, goErr, endOfInput]

/-- The export of a body whose reader fails at the break `b` after the opening bracket: it
exits with status 1, having written the elements delivered completely. -/
theorem manualStream_break (body : Body) (e : String) (vs : List (List Tok))
    (next : List Tok) (ps : List album) (b : Break) (hv : List.Forall₂ DecodesTo vs ps)
    (hnext : IsValue next) (hvalid : b.Valid vs next) (hb : b ≠ .beforeOpen)
    (hs : tokenize body = deliveredStream vs e b) :
    manualStreamDownloadAndStreamFlush body =
      ⟨.fileWrite "[" :: (fileElemEvents ps ++ [.println (.errDecoding (.read e))]),
        .exit 1⟩ := by
  have hfail := break_next_fails vs next e b hnext hvalid hb
  rw [← hs] at hfail
  have htoks : (tokenize body).toks = .lbrack :: (arrayElems vs ++ b.pendingToks vs) := by
    cases b with
    | beforeOpen => exact absurd rfl hb
    | boundary => simp [hs, deliveredStream, Break.pendingToks]
    | inside w mid => cases mid <;> simp [hs, deliveredStream, Break.pendingToks]
  exact manualStream_next_fails body vs ps _ _ hv htoks hfail

/-! ### Well-formed arrays and the sample inputs -/

theorem float64Bound_eq : float64Bound = 2 ^ 1024 - 2 ^ 970 := by
  norm_num [float64Bound]


/-- The export of a well-formed array. -/
theorem manualStream_photoArray (body : Body) (ps : List album) (h : IsPhotoArray body ps) :
    manualStreamDownloadAndStreamFlush body =
      ⟨.fileWrite "[" :: (fileElemEvents ps ++ [.fileWrite "]"]), .returned⟩ := by
  obtain ⟨vs, rest, hv, htoks⟩ := h
  obtain ⟨m, hm⟩ := fuel_split vs ps hv (Tok.rbrack :: rest)
  rw [manualStream_lbrack body (arrayElems vs ++ Tok.rbrack :: rest) htoks, hm,
    fileLoop_array _ _ _ vs ps hv, fileLoop_no_more _ _ (More_rbrack _ _ _ _ _)]
  cases vs <;> simp [closeArray, afterElems, Decoder.Token, tokenLoop, goErr]

/-- The SSE handler on a well-formed array. -/
theorem sseHandler_photoArray (errorText : ErrorText) (resp : Response) (ps : List album)
    (h : IsPhotoArray resp.Body ps) :
    sseHandler errorText true (.response resp) =
      ⟨sseHeaders ++ sseElemEvents ps ++ [.bodyClose], .returned⟩ := by
  obtain ⟨vs, rest, hv, htoks⟩ := h
  obtain ⟨m, hm⟩ := fuel_split vs ps hv (Tok.rbrack :: rest)
  rw [sseHandler_lbrack errorText resp (arrayElems vs ++ Tok.rbrack :: rest) htoks, hm,
    sseLoop_array _ _ _ _ vs ps hv, sseLoop_no_more _ _ _ (More_rbrack _ _ _ _ _)]
  simp

/-- After at least one element, the last two pieces written to the file are a comma and the
closing bracket. -/
theorem fileWrites_fileElemEvents_comma (p : album) (ps : List album) :
    ∃ pre, fileWrites (fileElemEvents (p :: ps)) = pre ++ [","] := by
  induction ps generalizing p with
  | nil => exact ⟨[encodeAlbum p], rfl⟩
  | cons q qs ih =>
    obtain ⟨pre, hpre⟩ := ih q
    refine ⟨encodeAlbum p :: "," :: pre, ?_⟩
    have : fileElemEvents (p :: q :: qs) =
        .encode (encodeAlbum p) :: .fileWrite "," :: fileElemEvents (q :: qs) := rfl
    rw [this]
    show encodeAlbum p :: "," :: fileWrites (fileElemEvents (q :: qs)) = _
    rw [hpre]
    rfl

theorem twoPhotosBody_isPhotoArray : IsPhotoArray twoPhotosBody [photoA, photoB] :=
  ⟨[photoToks "1" "1" "a" "u" "t", photoToks "1" "2" "b <1>" "v" "w"], [],
    .cons ⟨rfl, rfl⟩ (.cons ⟨rfl, rfl⟩ .nil), by decide⟩

theorem photoA_decodes : DecodesTo (photoToks "1" "1" "a" "u" "t") photoA := ⟨rfl, rfl⟩

/-! ### The decoder reads back what the encoder writes -/

theorem char_of_toNat {c : Char} {n : Nat} (h : c.toNat = n) : c = Char.ofNat n := by
  subst h
  exact (Char.ofNat_toNat c).symm

theorem hexVal_hexDigit (d : Nat) (h : d < 16) : hexVal (hexDigit d) = some d := by
  interval_cases d <;> rfl

theorem lexGo_cons (st : LexSt) (c : Char) (cs : List Char) :
    lexGo st (c :: cs) =
      match lexStep st c with
      | .bad q => ([], .bad q)
      | .next st1 ts => (ts ++ (lexGo st1 cs).1, (lexGo st1 cs).2) := by
  rw [lexGo]

/-- Lexing the escape `\u00XY` of an ASCII character yields that character. -/
theorem lexGo_u00 (c : Char) (h : c.toNat < 0x80) (acc rest : List Char) :
    lexGo (.inStr acc)
        ('\\' :: 'u' :: '0' :: '0' :: hexDigit (c.toNat / 16) :: hexDigit (c.toNat % 16) :: rest) =
      lexGo (.inStr (c :: acc)) rest := by
  have h1 : hexVal (hexDigit (c.toNat / 16)) = some (c.toNat / 16) :=
    hexVal_hexDigit _ (by omega)
  have h2 : hexVal (hexDigit (c.toNat % 16)) = some (c.toNat % 16) :=
    hexVal_hexDigit _ (by omega)
  have h3 : c.toNat / 16 * 16 + c.toNat % 16 = c.toNat := by omega
  have h0 : hexVal '0' = some 0 := rfl
  have hs1 : isHighSurrogate c.toNat = false := by
    simp [isHighSurrogate]; omega
  have hs2 : isLowSurrogate c.toNat = false := by
    simp [isLowSurrogate]; omega
  simp [lexGo_cons, lexStep, lexInStr, lexEsc, h0, h1, h2, h3, lexUnit, hs1, hs2]

/-- Lexing the escaped form of one character inside a string yields that character. -/
theorem lexGo_escapeChar (c : Char) (acc rest : List Char) :
    lexGo (.inStr acc) (escapeChar c ++ rest) = lexGo (.inStr (c :: acc)) rest := by
  unfold escapeChar
  split
  · next h =>
    simp only [beq_iff_eq] at h
    subst h
    simp [lexGo_cons, lexStep, lexInStr, lexEsc]
  split
  · next h =>
    simp only [beq_iff_eq] at h
    subst h
    simp [lexGo_cons, lexStep, lexInStr, lexEsc]
  split
  · next h =>
    simp only [beq_iff_eq] at h
    rw [char_of_toNat h]
    simp [lexGo_cons, lexStep, lexInStr, lexEsc]
  split
  · next h =>
    simp only [beq_iff_eq] at h
    rw [char_of_toNat h]
    simp [lexGo_cons, lexStep, lexInStr, lexEsc]
  split
  · next h =>
    simp only [beq_iff_eq] at h
    subst h
    simp [lexGo_cons, lexStep, lexInStr, lexEsc]
  split
  · next h =>
    simp only [beq_iff_eq] at h
    subst h
    simp [lexGo_cons, lexStep, lexInStr, lexEsc]
  split
  · next h =>
    simp only [beq_iff_eq] at h
    subst h
    simp [lexGo_cons, lexStep, lexInStr, lexEsc]
  split
  · next h =>
    have hc : c.toNat < 0x80 := by
      simp only [Bool.or_eq_true, decide_eq_true_eq, beq_iff_eq] at h
      rcases h with ((h | h) | h) | h
      · omega
      · subst h; decide
      · subst h; decide
      · subst h; decide
    exact lexGo_u00 c hc acc rest
  split
  · next h =>
    simp only [beq_iff_eq] at h
    rw [char_of_toNat h]
    simp [lexGo_cons, lexStep, lexInStr, lexEsc, lexUnit, hexVal, isHighSurrogate, isLowSurrogate]
  split
  · next h =>
    simp only [beq_iff_eq] at h
    rw [char_of_toNat h]
    simp [lexGo_cons, lexStep, lexInStr, lexEsc, lexUnit, hexVal, isHighSurrogate, isLowSurrogate]
  · next h1 h2 h3 h4 h5 h6 h7 h8 h9 h10 =>
    simp only [beq_iff_eq, Bool.or_eq_true, decide_eq_true_eq, not_or] at h1 h2 h8
    simp [lexGo_cons, lexStep, lexInStr, h1, h2, h8.1.1.1]


theorem mkString_reverse (s : List Char) : mkString s.reverse = String.mk s := by
  simp [mkString]

/-- Lexing an escaped string up to its closing quote. -/
theorem lexGo_escaped (s : List Char) : ∀ (acc rest : List Char),
    lexGo (.inStr acc) (s.flatMap escapeChar ++ '"' :: rest) =
      emitThen [.str (mkString (s.reverse ++ acc))] (lexGo (.afterScalar true) rest) := by
  induction s with
  | nil =>
    intro acc rest
    simp [lexGo_cons, lexStep, lexInStr, emitThen]
  | cons c s ih =>
    intro acc rest
    rw [List.flatMap_cons, List.append_assoc, lexGo_escapeChar, ih]
    simp

/-- Lexing a string literal written by the encoder yields the string. -/
theorem lexGo_quoteString (s : String) (rest : List Char) :
    lexGo .start ((quoteString s).data ++ rest) =
      emitThen [.str s] (lexGo (.afterScalar true) rest) := by
  simp only [quoteString, List.cons_append, List.append_assoc, List.singleton_append]
  rw [lexGo_cons]
  have : lexStep .start '"' = .next (.inStr []) [] := rfl
  rw [this]
  simp [lexGo_escaped, mkString_reverse, emitThen]

/-! ### Decimal numerals -/

theorem digitChar_val (d : Nat) (h : d < 10) :
    isDigit (Nat.digitChar d) = true ∧ (Nat.digitChar d).toNat - '0'.toNat = d ∧
      (d ≠ 0 → Nat.digitChar d ≠ '0') ∧ (d = 0 → Nat.digitChar d = '0') := by
  interval_cases d <;> decide

theorem digitsVal_append (xs : List Char) (c : Char) :
    digitsVal (xs ++ [c]) = 10 * digitsVal xs + (c.toNat - '0'.toNat) := by
  simp [digitsVal, List.foldl_append]

/-- The digits `Nat.toDigits` produces: all decimal digits, their value is the number, and the
first is `0` only for zero. -/
theorem toDigitsCore_spec : ∀ (fuel n : Nat) (ds : List Char), n < fuel →
    ∃ d pre, Nat.toDigitsCore 10 fuel n ds = d :: (pre ++ ds) ∧ isDigit d = true ∧
      pre.all isDigit = true ∧ digitsVal (d :: pre) = n ∧ (n ≠ 0 → d ≠ '0') ∧
      (n = 0 → d = '0' ∧ pre = []) := by
  intro fuel
  induction fuel with
  | zero => intro n ds h; omega
  | succ fuel ih =>
    intro n ds h
    unfold Nat.toDigitsCore
    simp only
    have hd := digitChar_val (n % 10) (Nat.mod_lt _ (by decide))
    split
    · next h0 =>
      have hn : n % 10 = n := by omega
      rw [hn] at hd ⊢
      refine ⟨Nat.digitChar n, [], by simp, hd.1, by simp, ?_, ?_, ?_⟩
      · have := hd.2.1
        simpa [digitsVal] using this
      · intro hne; exact hd.2.2.1 hne
      · intro he; exact ⟨hd.2.2.2 he, rfl⟩
    · next h0 =>
      have hlt : n / 10 < fuel := by omega
      obtain ⟨d, pre, he, hd1, hall, hval, hne, -⟩ := ih (n / 10) (Nat.digitChar (n % 10) :: ds) hlt
      refine ⟨d, pre ++ [Nat.digitChar (n % 10)], by simp [he], hd1, ?_, ?_, ?_, ?_⟩
      · simp [hall, hd.1]
      · have : d :: (pre ++ [Nat.digitChar (n % 10)]) = (d :: pre) ++ [Nat.digitChar (n % 10)] :=
          rfl
        rw [this, digitsVal_append, hval, hd.2.1]
        omega
      · intro _; exact hne h0
      · intro he0; omega

theorem toDigits_spec (n : Nat) :
    ∃ d pre, Nat.toDigits 10 n = d :: pre ∧ isDigit d = true ∧ pre.all isDigit = true ∧
      digitsVal (d :: pre) = n ∧ (n ≠ 0 → d ≠ '0') ∧ (n = 0 → d = '0' ∧ pre = []) := by
  obtain ⟨d, pre, h⟩ := toDigitsCore_spec (n + 1) n [] (Nat.lt_succ_self n)
  exact ⟨d, pre, by simpa [Nat.toDigits] using h.1, h.2⟩


theorem digit_cases (d : Char) (h : isDigit d = true) :
    d = '0' ∨ d = '1' ∨ d = '2' ∨ d = '3' ∨ d = '4' ∨ d = '5' ∨ d = '6' ∨ d = '7' ∨ d = '8' ∨
      d = '9' := by
  have hd : d = Char.ofNat d.toNat := (Char.ofNat_toNat d).symm
  simp only [isDigit, Bool.and_eq_true, decide_eq_true_eq] at h
  obtain ⟨h1, h2⟩ := h
  have h1 : 48 ≤ d.toNat := h1
  have h2 : d.toNat ≤ 57 := h2
  generalize d.toNat = k at hd h1 h2
  subst hd
  interval_cases k <;> decide

theorem lexStart_digit (d : Char) (h : isDigit d = true) (h0 : d ≠ '0') :
    lexStart d = .next (.num [d] .int) [] := by
  rcases digit_cases d h with h | h | h | h | h | h | h | h | h | h <;> subst h <;>
    first | exact absurd rfl h0 | rfl

theorem numNext_neg_digit (d : Char) (h : isDigit d = true) (h0 : d ≠ '0') :
    numNext .neg d = some .int := by
  simp [numNext, h, h0]

theorem numNext_int_digit (d : Char) (h : isDigit d = true) : numNext .int d = some .int := by
  simp [numNext, h]

theorem lexGo_digits (ds : List Char) (hall : ds.all isDigit = true) :
    ∀ (acc rest : List Char),
      lexGo (.num acc .int) (ds ++ rest) = lexGo (.num (ds.reverse ++ acc) .int) rest := by
  induction ds with
  | nil => intro acc rest; rfl
  | cons d ds ih =>
    intro acc rest
    simp only [List.all_cons, Bool.and_eq_true] at hall
    rw [List.cons_append, lexGo_cons]
    simp only [lexStep, numNext_int_digit d hall.1, List.nil_append]
    rw [ih hall.2]
    simp

theorem lexGo_num_comma (acc rest : List Char) (ns : NumSt) (h : ns = .int ∨ ns = .zero) :
    lexGo (.num acc ns) (',' :: rest) =
      emitThen [.num (mkString acc), .comma] (lexGo .start rest) := by
  rcases h with h | h <;> subst h <;>
    simp [lexGo_cons, lexStep, numNext, isDigit, NumSt.accepting, lexStart, isSpace,
      LexStep.emitFirst, emitThen]

/-- Lexing the decimal numeral of a natural number, followed by a comma. -/
theorem lexGo_nat (n : Nat) (rest : List Char) :
    lexGo .start (Nat.toDigits 10 n ++ ',' :: rest) =
      emitThen [.num (String.mk (Nat.toDigits 10 n)), .comma] (lexGo .start rest) := by
  obtain ⟨d, pre, he, hd, hall, -, hne, hz⟩ := toDigits_spec n
  rw [he]
  by_cases h0 : n = 0
  · obtain ⟨rfl, rfl⟩ := hz h0
    rw [List.cons_append, lexGo_cons]
    have : lexStep .start '0' = .next (.num ['0'] .zero) [] := rfl
    rw [this]
    simp only [List.nil_append]
    rw [lexGo_num_comma _ _ _ (Or.inr rfl)]
    rfl
  · rw [List.cons_append, lexGo_cons]
    simp only [lexStep, lexStart_digit d hd (hne h0), List.nil_append]
    rw [lexGo_digits pre hall, lexGo_num_comma _ _ _ (Or.inl rfl)]
    simp [mkString]

/-- Lexing the numeral of a negative number, followed by a comma. -/
theorem lexGo_neg (n : Nat) (rest : List Char) :
    lexGo .start ('-' :: (Nat.toDigits 10 (n + 1) ++ ',' :: rest)) =
      emitThen [.num (String.mk ('-' :: Nat.toDigits 10 (n + 1))), .comma]
        (lexGo .start rest) := by
  obtain ⟨d, pre, he, hd, hall, -, hne, -⟩ := toDigits_spec (n + 1)
  rw [he, lexGo_cons]
  have : lexStep .start '-' = .next (.num ['-'] .neg) [] := rfl
  rw [this]
  simp only [List.nil_append]
  rw [List.cons_append, lexGo_cons]
  simp only [lexStep, numNext_neg_digit d hd (hne (Nat.succ_ne_zero n)), List.nil_append]
  rw [lexGo_digits pre hall, lexGo_num_comma _ _ _ (Or.inl rfl)]
  simp [mkString]

theorem toString_int_data (i : Int) :
    (toString i).data =
      match i with
      | .ofNat m => Nat.toDigits 10 m
      | .negSucc m => '-' :: Nat.toDigits 10 (m + 1) := by
  cases i <;> rfl

/-- Lexing the numeral the encoder writes for an integer, followed by a comma. -/
theorem lexGo_int (i : Int) (rest : List Char) :
    lexGo .start ((toString i).data ++ ',' :: rest) =
      emitThen [.num (toString i), .comma] (lexGo .start rest) := by
  cases i with
  | ofNat m =>
    have h := lexGo_nat m rest
    exact h
  | negSucc m =>
    have h := lexGo_neg m rest
    exact h

/-- The decoder reads back the numeral the encoder writes for a 64-bit integer. -/
theorem parseInt64_toString (i : Int) (h1 : -(2 : Int) ^ 63 ≤ i) (h2 : i < (2 : Int) ^ 63) :
    parseInt64 (toString i) = some i := by
  cases i with
  | ofNat m =>
    obtain ⟨d, pre, he, hd, hall, hval, -, -⟩ := toDigits_spec m
    have hdata : (toString (Int.ofNat m)).data = d :: pre := he
    have hm : m < 2 ^ 63 := by
      have : (m : Int) < (2 : Int) ^ 63 := h2
      exact_mod_cast this
    have hminus : d ≠ '-' := by
      rintro rfl
      simp [isDigit] at hd
    unfold parseInt64
    rw [hdata]
    split
    · next ds heq =>
      injection heq with heq1 _
      exact absurd heq1 hminus
    · simp only [hd, hall, hval, List.all_cons, Bool.and_self, List.isEmpty_cons,
        Bool.not_false, Bool.true_and, decide_eq_true_eq]
      norm_num at hm
      simp [hm]
  | negSucc m =>
    obtain ⟨d, pre, he, hd, hall, hval, -, -⟩ := toDigits_spec (m + 1)
    have hdata : (toString (Int.negSucc m)).data = '-' :: d :: pre := by
      rw [← he]; rfl
    have hm : m + 1 ≤ 2 ^ 63 := by
      have : -(2 : Int) ^ 63 ≤ Int.negSucc m := h1
      rw [Int.negSucc_eq] at this
      have h3 : ((m : Int) + 1) ≤ (2 : Int) ^ 63 := by omega
      exact_mod_cast h3
    unfold parseInt64
    rw [hdata]
    simp only [hd, hall, hval, List.all_cons, Bool.and_self, List.isEmpty_cons,
      Bool.not_false, Bool.true_and, decide_eq_true_eq]
    norm_num at hm
    simp [hm, Int.negSucc_eq]


/-- The lexer over a piece of data followed by more data. -/
theorem lexGo_run : ∀ (pre : List Char) (st st1 : LexSt) (ts : List Tok) (rest : List Char),
    lexRun st pre = some (ts, st1) →
      lexGo st (pre ++ rest) = emitThen ts (lexGo st1 rest) := by
  intro pre
  induction pre with
  | nil =>
    intro st st1 ts rest h
    simp only [lexRun, Option.some.injEq, Prod.mk.injEq] at h
    obtain ⟨rfl, rfl⟩ := h
    simp [emitThen]
  | cons c cs ih =>
    intro st st1 ts rest h
    rw [List.cons_append, lexGo_cons]
    simp only [lexRun] at h
    cases hs : lexStep st c with
    | bad q => simp [hs] at h
    | next st2 ts2 =>
      simp only [hs] at h ⊢
      cases hr : lexRun st2 cs with
      | none => simp [hr] at h
      | some r =>
        obtain ⟨ts3, st3⟩ := r
        simp only [hr, Option.some.injEq, Prod.mk.injEq] at h
        obtain ⟨rfl, rfl⟩ := h
        rw [ih st2 st3 ts3 rest hr]
        simp [emitThen]

theorem marshalAlbum_data (a : album) (rest : List Char) :
    (marshalAlbum a).data ++ rest =
      "\x7b\"albumId\":".data ++ ((toString a.AlbumId).data ++ ',' ::
        ("\"id\":".data ++ ((toString a.Id).data ++ ',' ::
          ("\"title\":".data ++ ((quoteString a.Title).data ++
            (",\"url\":".data ++ ((quoteString a.Url).data ++
              (",\"thumbnailUrl\":".data ++ ((quoteString a.ThumbnailUrl).data ++
                ("\x7d".data ++ rest)))))))))) := by
  simp only [marshalAlbum, String.data_append, List.append_assoc]
  rfl

/-- Lexing the object the encoder writes for an album yields its tokens. -/
theorem lexGo_marshalAlbum (a : album) (rest : List Char) :
    lexGo .start ((marshalAlbum a).data ++ rest) =
      emitThen (albumToks a) (lexGo .start rest) := by
  rw [marshalAlbum_data,
    lexGo_run "\x7b\"albumId\":".data .start .start [.lbrace, .str "albumId", .colon] _ rfl,
    lexGo_int,
    lexGo_run "\"id\":".data .start .start [.str "id", .colon] _ rfl,
    lexGo_int,
    lexGo_run "\"title\":".data .start .start [.str "title", .colon] _ rfl,
    lexGo_quoteString a.Title,
    lexGo_run ",\"url\":".data (.afterScalar true) .start [.comma, .str "url", .colon] _ rfl,
    lexGo_quoteString a.Url,
    lexGo_run ",\"thumbnailUrl\":".data (.afterScalar true) .start
      [.comma, .str "thumbnailUrl", .colon] _ rfl,
    lexGo_quoteString a.ThumbnailUrl,
    lexGo_run "\x7d".data (.afterScalar true) .start [.rbrace] _ rfl]
  simp [albumToks, photoToks, emitThen]

theorem albumToks_isValue (a : album) : IsValue (albumToks a) := by
  simp [IsValue, albumToks, photoToks, scanValue, scanStep, beginStep, popState]

theorem fieldOf_tags :
    fieldOf "albumId" = some .albumId ∧ fieldOf "id" = some .id ∧
      fieldOf "title" = some .title ∧ fieldOf "url" = some .url ∧
      fieldOf "thumbnailUrl" = some .thumbnailUrl := by
  decide

/-- The decoder reads back what the encoder writes for an album whose numbers fit. -/
theorem albumToks_decodes (a : album) (h : a.InRange) : DecodesTo (albumToks a) a := by
  refine ⟨albumToks_isValue a, ?_⟩
  obtain ⟨f1, f2, f3, f4, f5⟩ := fieldOf_tags
  simp [unmarshalAlbum, albumToks, photoToks, umMembers, f1, f2, f3, f4, f5, storeField,
    parseInt64_toString _ h.1.1 h.1.2, parseInt64_toString _ h.2.1 h.2.2, keepFirst,
    album.zero]

theorem lexGo_elemsAfter (rest : List Char) : ∀ (ps : List album),
    lexGo .start (ps.flatMap (fun q => ',' :: (marshalAlbum q).data) ++ rest) =
      emitThen (elemsAfter (ps.map albumToks)) (lexGo .start rest) := by
  intro ps
  induction ps with
  | nil => simp [elemsAfter, emitThen]
  | cons p ps ih =>
    rw [List.flatMap_cons, List.append_assoc, List.cons_append, lexGo_cons]
    have : lexStep .start ',' = .next .start [.comma] := rfl
    rw [this]
    simp only
    rw [lexGo_marshalAlbum, ih]
    simp [elemsAfter, emitThen]

theorem lexGo_canonicalElems (rest : List Char) (ps : List album) :
    lexGo .start (canonicalElems ps ++ rest) =
      emitThen (arrayElems (ps.map albumToks)) (lexGo .start rest) := by
  cases ps with
  | nil => simp [canonicalElems, arrayElems, emitThen]
  | cons p ps =>
    simp only [canonicalElems, List.append_assoc]
    rw [lexGo_marshalAlbum, lexGo_elemsAfter]
    simp [arrayElems, emitThen]

/-- Every body the encoder writes for a list of albums whose numbers fit is a well-formed
array of these albums: the hypotheses of the claims on well-formed input cover all of them. -/
theorem canonicalBody_isPhotoArray (ps : List album) (h : ∀ p ∈ ps, p.InRange) :
    IsPhotoArray (canonicalBody ps) ps := by
  refine ⟨ps.map albumToks, [], ?_, ?_⟩
  · induction ps with
    | nil => exact .nil
    | cons p ps ih =>
      exact .cons (albumToks_decodes p (h p (List.mem_cons_self _ _)))
        (ih (fun q hq => h q (List.mem_cons_of_mem _ hq)))
  · have hl : lexGo .start (canonicalBody ps).data =
        (Tok.lbrack :: (arrayElems (ps.map albumToks) ++ [Tok.rbrack]), .clean) := by
      simp only [canonicalBody]
      rw [lexGo_cons]
      have : lexStep .start '[' = .next .start [.lbrack] := rfl
      rw [this]
      simp only
      rw [lexGo_canonicalElems]
      rfl
    simp [tokenize, hl]


/-- The export of any body the encoder writes: every album is written back, in order. -/
theorem manualStream_canonicalBody (ps : List album) (h : ∀ p ∈ ps, p.InRange) :
    manualStreamDownloadAndStreamFlush (canonicalBody ps) =
      ⟨.fileWrite "[" :: (fileElemEvents ps ++ [.fileWrite "]"]), .returned⟩ :=
  manualStream_photoArray _ ps (canonicalBody_isPhotoArray ps h)

/-- The SSE handler on any body the encoder writes: one Title frame per album, in order. -/
theorem sseHandler_canonicalBody (errorText : ErrorText) (status : Nat) (ps : List album)
    (h : ∀ p ∈ ps, p.InRange) :
    sseHandler errorText true (.response ⟨status, canonicalBody ps⟩) =
      ⟨sseHeaders ++ sseElemEvents ps ++ [.bodyClose], .returned⟩ :=
  sseHandler_photoArray errorText ⟨status, canonicalBody ps⟩ ps (canonicalBody_isPhotoArray ps h)

/-! ## The claims -/

/-- C1. For every body that is a JSON array whose N elements decode to the albums `ps`
(N >= 0), `manualStreamDownloadAndStreamFlush` returns normally, and its effects are exactly:
the opening bracket, then for each album in input order its encoding by the encoder (the JSON
object with the fields albumId, id, title, url, thumbnailUrl, followed by the newline `Encode`
appends) and a comma, then the closing bracket. No exit branch is taken (nothing is printed),
and exactly N elements, the encodings of the decoded albums in order, are written. -/
theorem file_export_writes_every_element (body : Body) (ps : List album)
    (h : IsPhotoArray body ps) :
    manualStreamDownloadAndStreamFlush body =
        ⟨Event.fileWrite "[" ::
          (ps.flatMap (fun p => [Event.encode (marshalAlbum p ++ "\n"), Event.fileWrite ","]) ++
            [Event.fileWrite "]"]), .returned⟩ ∧
      encodedElements (manualStreamDownloadAndStreamFlush body).events =
        ps.map (fun p => marshalAlbum p ++ "\n") ∧
      (encodedElements (manualStreamDownloadAndStreamFlush body).events).length = ps.length := by
  have hrun := manualStream_photoArray body ps h
  refine ⟨?_, ?_, ?_⟩
  · rw [hrun, fileElemEvents_eq]
  · rw [hrun]
    simp only [encodedElements, encodedElements_append, encodedElements_fileElemEvents]
    simp [encodeAlbum]
  · rw [hrun]
    simp only [encodedElements, encodedElements_append, encodedElements_fileElemEvents]
    simp

/-- Witness of C1: a body of two Photos, with white space and an escape sequence. -/
theorem file_export_writes_every_element_witness :
    IsPhotoArray twoPhotosBody [photoA, photoB] ∧
      manualStreamDownloadAndStreamFlush twoPhotosBody =
        ⟨[.fileWrite "[",
          .encode
            "\x7b\"albumId\":1,\"id\":1,\"title\":\"a\",\"url\":\"u\",\"thumbnailUrl\":\"t\"\x7d\n",
          .fileWrite ",",
          .encode ("\x7b\"albumId\":1,\"id\":2,\"title\":\"b \\u003c1\\u003e\",\"url\":\"v\"," ++
            "\"thumbnailUrl\":\"w\"\x7d\n"),
          .fileWrite ",", .fileWrite "]"], .returned⟩ :=
  ⟨twoPhotosBody_isPhotoArray,
    (file_export_writes_every_element twoPhotosBody [photoA, photoB]
      twoPhotosBody_isPhotoArray).1.trans (by decide)⟩

/-- C2. For every response whose body is a JSON array whose N elements decode to albums with
titles t_1..t_N, `sseHandler` (with a response writer that can flush) returns after writing,
in input order, exactly the N frames `data: Title: t_i` followed by two newlines, each flushed
and followed by the one second pause; the bytes sent to the client are the concatenation of
these frames, there are exactly N of them, and another well-formed response with the same
sequence of titles produces the same bytes. -/
theorem sse_emits_one_title_frame_per_element (errorText : ErrorText) (resp : Response)
    (ps : List album) (h : IsPhotoArray resp.Body ps) :
    sseHandler errorText true (.response resp) =
        ⟨sseHeaders ++
          ps.flatMap (fun p =>
            [Event.clientWrite ("data: Title: " ++ p.Title ++ "\n\n"), Event.flush,
              Event.sleep 1]) ++ [Event.bodyClose], .returned⟩ ∧
      clientBytes (sseHandler errorText true (.response resp)).events =
        String.join ((ps.map (fun p => p.Title)).map (fun t => "data: Title: " ++ t ++ "\n\n")) ∧
      (clientWrites (sseHandler errorText true (.response resp)).events).length = ps.length ∧
      ∀ (resp2 : Response) (ps2 : List album), IsPhotoArray resp2.Body ps2 →
        ps2.map (fun p => p.Title) = ps.map (fun p => p.Title) →
        clientBytes (sseHandler errorText true (.response resp2)).events =
          clientBytes (sseHandler errorText true (.response resp)).events := by
  have key := sseHandler_photoArray errorText
  have bytes : ∀ (resp : Response) (ps : List album), IsPhotoArray resp.Body ps →
      clientBytes (sseHandler errorText true (.response resp)).events =
        String.join ((ps.map (fun p => p.Title)).map
          (fun t => "data: Title: " ++ t ++ "\n\n")) := by
    intro resp ps h
    rw [key resp ps h]
    simp only [clientBytes]
    rw [clientWrites_append, clientWrites_append, clientWrites_sseHeaders,
      clientWrites_sseElemEvents]
    simp only [clientWrites, List.nil_append, List.append_nil, List.map_map, titleFrame]
    rfl
  refine ⟨?_, bytes resp ps h, ?_, ?_⟩
  · rw [key resp ps h, sseElemEvents_eq]
  · rw [key resp ps h]
    simp only []
    rw [clientWrites_append, clientWrites_append, clientWrites_sseHeaders,
      clientWrites_sseElemEvents]
    simp [clientWrites]
  · intro resp2 ps2 h2 ht
    rw [bytes resp2 ps2 h2, bytes resp ps h, ht]

/-- Witness of C2: the same body of two Photos. -/
theorem sse_emits_one_title_frame_per_element_witness :
    IsPhotoArray twoPhotosBody [photoA, photoB] ∧
      clientBytes (sseHandler sampleErrorText true (.response ⟨200, twoPhotosBody⟩)).events =
        "data: Title: a\n\ndata: Title: b <1>\n\n" :=
  ⟨twoPhotosBody_isPhotoArray,
    (sse_emits_one_title_frame_per_element sampleErrorText ⟨200, twoPhotosBody⟩
      [photoA, photoB] twoPhotosBody_isPhotoArray).2.1.trans (by decide)⟩

/-- C3 (the code breaks the claim). For the one-Photo input of the spec the file ends in a
comma and the closing bracket, which is not a JSON value; and for every well-formed array with
at least one element the last two pieces written are a comma and the closing bracket. -/
theorem file_export_leaves_trailing_comma :
    fileBytes (manualStreamDownloadAndStreamFlush onePhotoBody).events =
        "[\x7b\"albumId\":1,\"id\":1,\"title\":\"a\",\"url\":\"u\",\"thumbnailUrl\":\"t\"\x7d\n,]" ∧
      isValidJson (fileBytes (manualStreamDownloadAndStreamFlush onePhotoBody).events) = false ∧
      ∀ (body : Body) (p : album) (ps : List album), IsPhotoArray body (p :: ps) →
        ∃ pre, fileWrites (manualStreamDownloadAndStreamFlush body).events =
          pre ++ [",", "]"] := by
  refine ⟨by decide, by decide, ?_⟩
  intro body p ps h
  obtain ⟨pre, hpre⟩ := fileWrites_fileElemEvents_comma p ps
  refine ⟨"[" :: pre, ?_⟩
  rw [manualStream_photoArray body (p :: ps) h]
  show "[" :: fileWrites (fileElemEvents (p :: ps) ++ [Event.fileWrite "]"]) = _
  rw [fileWrites_append, hpre]
  simp [fileWrites]

/-- C4 (the code breaks the claim). On the body `\x7b\x7d` the first token is read without
error and is not the opening bracket: the branch evaluates `err.Error()` on a nil error and the
process crashes with a nil dereference instead of exiting with status 1 (nothing was written).
On every body whose first token cannot be read the branch does exit with status 1, before
anything is decoded or written. -/
theorem non_array_body_panics_instead_of_exit :
    manualStreamDownloadAndStreamFlush emptyObjectBody = ⟨[], .nilDeref⟩ ∧
      ∀ (body : Body) (e : DecodeErr), (NewDecoder body).Token.2 = .error e →
        manualStreamDownloadAndStreamFlush body =
          ⟨[.println (.notAnArray e none), .bodyRead, .println .fullBody,
            .println (.payload "")], .exit 1⟩ := by
  refine ⟨by decide, ?_⟩
  intro body e h
  simp [manualStreamDownloadAndStreamFlush, h, goValue, goErr]

/-- C5 (the code breaks the claim). `sseHandler` ignores the result of its first `Token`: on
the body `\x7b\x7d` it writes nothing at all, no error frame; on a number followed by a Photo
object it writes that object's Title frame and no error frame. -/
theorem sse_does_not_check_the_opening_token (errorText : ErrorText) :
    clientWrites (sseHandler errorText true (.response ⟨200, emptyObjectBody⟩)).events = [] ∧
      clientWrites (sseHandler errorText true (.response ⟨200, numberThenPhotoBody⟩)).events =
        ["data: Title: a\n\n"] := by
  constructor <;> rfl

/-- C6. When the elements 1..k-1 of an array decode to the albums `ps` and element k fails to
decode with error `e`, the export has written the opening bracket and exactly the k-1 encoded
elements (each followed by its comma), in order, then prints the error and exits with status 1;
the SSE handler has written and flushed exactly the k-1 Title frames, in order, then writes one
error frame, flushes it and returns. Nothing else is written: nothing from element k or a later
one. -/
theorem decode_failure_stops_after_earlier_elements (errorText : ErrorText) (resp : Response)
    (vs : List (List Tok)) (ps : List album) (rest : List Tok) (e : DecodeErr)
    (hv : List.Forall₂ DecodesTo vs ps)
    (htoks : (tokenize resp.Body).toks = Tok.lbrack :: (arrayElems vs ++ rest))
    (hfail : NextElementFails (tokenize resp.Body) vs rest e) :
    manualStreamDownloadAndStreamFlush resp.Body =
        ⟨Event.fileWrite "[" ::
          (ps.flatMap (fun p => [Event.encode (marshalAlbum p ++ "\n"), Event.fileWrite ","]) ++
            [Event.println (.errDecoding e)]), .exit 1⟩ ∧
      encodedElements (manualStreamDownloadAndStreamFlush resp.Body).events =
        ps.map (fun p => marshalAlbum p ++ "\n") ∧
      sseHandler errorText true (.response resp) =
        ⟨sseHeaders ++
          ps.flatMap (fun p =>
            [Event.clientWrite ("data: Title: " ++ p.Title ++ "\n\n"), Event.flush,
              Event.sleep 1]) ++
          [Event.clientWrite ("data: Error decoding single album " ++ errorText e ++ "\n\n"),
            Event.flush, Event.bodyClose], .returned⟩ ∧
      clientWrites (sseHandler errorText true (.response resp)).events =
        ps.map (fun p => "data: Title: " ++ p.Title ++ "\n\n") ++
          ["data: Error decoding single album " ++ errorText e ++ "\n\n"] := by
  have h1 := manualStream_next_fails resp.Body vs ps rest e hv htoks hfail
  have h2 := sseHandler_next_fails errorText resp vs ps rest e hv htoks hfail
  refine ⟨?_, ?_, ?_, ?_⟩
  · rw [h1, fileElemEvents_eq]
  · rw [h1]
    simp only [encodedElements, encodedElements_append, encodedElements_fileElemEvents]
    simp [encodeAlbum]
  · rw [h2, sseElemEvents_eq]; rfl
  · rw [h2]
    simp only []
    rw [clientWrites_append, clientWrites_append, clientWrites_sseHeaders,
      clientWrites_sseElemEvents]
    simp [clientWrites, titleFrame, decodeErrorFrame]

/-- Witness of C6: the second of three elements has a number as its title. -/
theorem decode_failure_stops_after_earlier_elements_witness :
    manualStreamDownloadAndStreamFlush badSecondBody =
        ⟨[.fileWrite "[",
          .encode
            "\x7b\"albumId\":1,\"id\":1,\"title\":\"a\",\"url\":\"u\",\"thumbnailUrl\":\"t\"\x7d\n",
          .fileWrite ",", .println (.errDecoding (.typeErr .number (some .title)))], .exit 1⟩ ∧
      clientWrites (sseHandler sampleErrorText true (.response ⟨200, badSecondBody⟩)).events =
        ["data: Title: a\n\n", "data: Error decoding single album decode error\n\n"] :=
  have h := decode_failure_stops_after_earlier_elements sampleErrorText ⟨200, badSecondBody⟩
    [photoToks "1" "1" "a" "u" "t"] [photoA]
    [.comma, .lbrace, .str "title", .colon, .num "5", .rbrace, .comma, .lbrace, .str "title",
      .colon, .str "c", .rbrace, .rbrack]
    (.typeErr .number (some .title)) (.cons photoA_decodes .nil) (by decide) ⟨rfl, rfl⟩
  ⟨h.1.trans (by decide), h.2.2.2.trans (by decide)⟩

/-- C7 (the code breaks the claim). When the request cannot be built or the transport fails,
`fetchAlbums` prints the error and exits the process with status 1: nothing is written to the
client. A response with a non-success status is not looked at: with status 404 the handler
writes no frame at all for the body `\x7b\x7d`, and the Title frame for a body that is an
array of one Photo. -/
theorem sse_fetch_failure_exits_the_process (errorText : ErrorText) (e : String) :
    sseHandler errorText true (.doErr e) =
        ⟨sseHeaders ++ [.println (.errMakingRequest e)], .exit 1⟩ ∧
      sseHandler errorText true (.reqErr e) =
        ⟨sseHeaders ++ [.println (.errCreatingReq e)], .exit 1⟩ ∧
      clientWrites (sseHandler errorText true (.doErr e)).events = [] ∧
      clientWrites (sseHandler errorText true (.response ⟨404, emptyObjectBody⟩)).events = [] ∧
      clientWrites (sseHandler errorText true (.response ⟨404, onePhotoBody⟩)).events =
        ["data: Title: a\n\n"] := by
  refine ⟨rfl, rfl, rfl, rfl, rfl⟩

/-- C8. Let a well-formed array have N elements, decoding to the albums `ps`, and let k < N.
If the body read fails with `e` (deadline expiry) after exactly the elements 1..k have been
delivered completely - exactly at the boundary after element k, or inside element k+1 (after
the separator, after part of the element, in the middle of one of its tokens), or for k = 0
before the opening bracket - the export prints the error and exits with status 1 instead of
completing normally, and so does `streamToFile`. The elements written to the file are exactly
the k elements already decoded, in order, which is fewer than N. -/
theorem deadline_expiry_aborts_the_export (body : Body) (e : String)
    (vs : List (List Tok)) (ps : List album) (k : Nat) (b : Break)
    (hv : List.Forall₂ DecodesTo vs ps) (hk : k < ps.length)
    (hvalid : b.Valid (vs.take k) (vs.getD k []))
    (hs : tokenize body = deliveredStream (vs.take k) e b) :
    (manualStreamDownloadAndStreamFlush body).outcome = .exit 1 ∧
      (streamToFile (.response ⟨200, body⟩) none).outcome = .exit 1 ∧
      (b = .beforeOpen →
        manualStreamDownloadAndStreamFlush body =
          ⟨[.println (.notAnArray (.read e) none), .bodyRead, .println .fullBody,
            .println (.payload "")], .exit 1⟩) ∧
      (b ≠ .beforeOpen →
        manualStreamDownloadAndStreamFlush body =
          ⟨.fileWrite "[" ::
            ((ps.take k).flatMap
                (fun p => [.encode (marshalAlbum p ++ "\n"), .fileWrite ","]) ++
              [.println (.errDecoding (.read e))]), .exit 1⟩) ∧
      encodedElements (manualStreamDownloadAndStreamFlush body).events =
        (ps.take k).map (fun p => marshalAlbum p ++ "\n") ∧
      (encodedElements (manualStreamDownloadAndStreamFlush body).events).length = k ∧
      (encodedElements (manualStreamDownloadAndStreamFlush body).events).length <
        ps.length := by
  have hlen : vs.length = ps.length := hv.length_eq
  have hkv : k < vs.length := by omega
  have hnext : IsValue (vs.getD k []) := by
    rw [List.getD_eq_getElem _ _ hkv]
    exact (hv.get hkv hk).1
  have htake := List.forall₂_take k hv
  have hbefore : b = .beforeOpen →
      manualStreamDownloadAndStreamFlush body =
        ⟨[.println (.notAnArray (.read e) none), .bodyRead, .println .fullBody,
          .println (.payload "")], .exit 1⟩ := by
    intro hb
    subst hb
    exact manualStream_break_beforeOpen body e _ hs
  have hafter : b ≠ .beforeOpen →
      manualStreamDownloadAndStreamFlush body =
        ⟨.fileWrite "[" :: (fileElemEvents (ps.take k) ++
          [.println (.errDecoding (.read e))]), .exit 1⟩ :=
    fun hb => manualStream_break body e (vs.take k) (vs.getD k []) (ps.take k) b htake hnext
      hvalid hb hs
  have henc : encodedElements (manualStreamDownloadAndStreamFlush body).events =
      (ps.take k).map (fun p => marshalAlbum p ++ "\n") := by
    by_cases hb : b = .beforeOpen
    · rw [hbefore hb]
      subst hb
      have hvs : vs.take k = [] := hvalid
      have hps : ps.take k = [] := by
        have := htake.length_eq
        rw [hvs] at this
        exact List.length_eq_zero.mp this.symm
      rw [hps]
      rfl
    · rw [hafter hb]
      simp only [encodedElements, encodedElements_append, encodedElements_fileElemEvents]
      simp [encodedElements]
      rfl
  have hcount : (encodedElements (manualStreamDownloadAndStreamFlush body).events).length =
      k := by
    rw [henc, List.length_map, List.length_take]
    omega
  have hout : (manualStreamDownloadAndStreamFlush body).outcome = .exit 1 := by
    by_cases hb : b = .beforeOpen
    · rw [hbefore hb]
    · rw [hafter hb]
  refine ⟨hout, ?_, hbefore, ?_, henc, hcount, ?_⟩
  · simp [streamToFile, fetchAlbums, hout]
  · intro hb
    rw [hafter hb, fileElemEvents_eq]
  · rw [hcount]
    exact hk

/-- Witness of C8: of the two Photos of `twoPhotosBody` the first is delivered completely
(k = 1, N = 2); the reader fails in the middle of the key `title` of the second, and exactly
at the boundary after the first. -/
theorem deadline_expiry_aborts_the_export_witness :
    cutInsideBody.data <+: twoPhotosBody.data ∧
      cutAtBoundaryBody.data <+: twoPhotosBody.data ∧
      manualStreamDownloadAndStreamFlush cutInsideBody =
        ⟨[.fileWrite "[",
          .encode
            "\x7b\"albumId\":1,\"id\":1,\"title\":\"a\",\"url\":\"u\",\"thumbnailUrl\":\"t\"\x7d\n",
          .fileWrite ",", .println (.errDecoding (.read "context deadline exceeded"))],
          .exit 1⟩ ∧
      manualStreamDownloadAndStreamFlush cutAtBoundaryBody =
        ⟨[.fileWrite "[",
          .encode
            "\x7b\"albumId\":1,\"id\":1,\"title\":\"a\",\"url\":\"u\",\"thumbnailUrl\":\"t\"\x7d\n",
          .fileWrite ",", .println (.errDecoding (.read "context deadline exceeded"))],
          .exit 1⟩ ∧
      (streamToFile (.response ⟨200, cutAtBoundaryBody⟩) none).outcome = .exit 1 :=
  have hin := deadline_expiry_aborts_the_export cutInsideBody "context deadline exceeded"
    [photoToks "1" "1" "a" "u" "t", photoToks "1" "2" "b <1>" "v" "w"] [photoA, photoB] 1
    (.inside [.lbrace, .str "albumId", .colon, .num "1", .comma, .str "id", .colon, .num "2",
      .comma] (some true))
    (.cons ⟨rfl, rfl⟩ (.cons ⟨rfl, rfl⟩ .nil)) (by decide)
    ⟨.str "title", [.colon, .str "b <1>", .comma, .str "url", .colon, .str "v", .comma,
      .str "thumbnailUrl", .colon, .str "w", .rbrace], rfl, by simp [Tok.cutKind]⟩
    (by decide)
  have hat := deadline_expiry_aborts_the_export cutAtBoundaryBody "context deadline exceeded"
    [photoToks "1" "1" "a" "u" "t", photoToks "1" "2" "b <1>" "v" "w"] [photoA, photoB] 1
    .boundary (.cons ⟨rfl, rfl⟩ (.cons ⟨rfl, rfl⟩ .nil)) (by decide) trivial (by decide)
  ⟨by decide, by decide, (hin.2.2.2.1 (by decide)).trans (by decide),
    (hat.2.2.2.1 (by decide)).trans (by decide), hat.2.1⟩

/-- Counterexample to C9: the output for the spec's input is not the frame with a space
between the title and the newlines. -/
theorem sse_frame_has_no_space_after_title :
    clientBytes (sseHandler sampleErrorText true (.response ⟨200, onePhotoBody⟩)).events ≠
      "data: Title: a \n\n" := by
  decide

/-- C9 (as amended). Given the upstream body of the spec's example, the complete output of
`sseHandler` is exactly one frame, byte for byte `data: Title: a` followed by two newlines
(the title, then directly the two newlines). -/
theorem sse_single_photo_output (errorText : ErrorText) :
    clientWrites (sseHandler errorText true (.response ⟨200, onePhotoBody⟩)).events =
        ["data: Title: a\n\n"] ∧
      clientBytes (sseHandler errorText true (.response ⟨200, onePhotoBody⟩)).events =
        "data: Title: a\n\n" := by
  constructor <;> rfl

/-- C10 (the code breaks the claim). (a) Whenever `fetchAlbums` returns, its `err` is nil; so
for every response with a status other than 200 the branch of `streamToFile` evaluates
`err.Error()` on a nil error and the process crashes with a nil dereference, not `os.Exit(1)`.
(b) For every body whose first token is read without error and is not the opening bracket, the
branch of `manualStreamDownloadAndStreamFlush` does the same. -/
theorem error_branches_dereference_nil_error (r : Response) (createErr : Option String)
    (body : Body) (t : TokenVal) (hstatus : r.StatusCode ≠ 200)
    (htoken : (NewDecoder body).Token.2 = .ok t) (hnot : t ≠ .delim '[') :
    streamToFile (.response r) createErr = ⟨[], .nilDeref⟩ ∧
      manualStreamDownloadAndStreamFlush body = ⟨[], .nilDeref⟩ := by
  constructor
  · simp [streamToFile, fetchAlbums, hstatus]
  · simp [manualStreamDownloadAndStreamFlush, htoken, goValue, goErr, hnot]

/-- Witness of C10: status 404, and a body that is a single number. -/
theorem error_branches_dereference_nil_error_witness :
    streamToFile (.response ⟨404, emptyObjectBody⟩) none = ⟨[], .nilDeref⟩ ∧
      manualStreamDownloadAndStreamFlush numberBody = ⟨[], .nilDeref⟩ :=
  error_branches_dereference_nil_error ⟨404, emptyObjectBody⟩ none numberBody (.num "7")
    (by decide) rfl (by decide)

end StreamJson
